import Mathlib

/-!
# Verification of the `seguimiento-parlamentario` extraction & media pipeline

Shallow embedding (in Lean 4) of the pure computational core of the
repository, together with theorems settling the specification claims.

Conventions used throughout:
* Python lists become `List`; Python `str` becomes `List Char` (a string is
  its character sequence); machine integers are `Nat`/`Int` (Python ints are
  unbounded, so no wrap-around modelling is needed).
* Timestamps are modelled as integer minutes; a time of day is minutes
  after midnight (so `12:00` is `720`).
* Fallible code returns `Except`/`Option`.
* Code driven by external I/O (Selenium, HTTP) is embedded by making the
  fetched data an explicit argument of the function.
-/

namespace SP

/-! ## Character classes (ASCII fragments of Python's `\d` and `[a-zA-Z]`) -/

/-- `\d` on the ASCII range (the inputs of interest are ASCII). -/
def isDigitCh (c : Char) : Bool := '0' ≤ c && c ≤ '9'

/-- `[a-zA-Z]`. -/
def isAlphaCh (c : Char) : Bool := ('a' ≤ c && c ≤ 'z') || ('A' ≤ c && c ≤ 'Z')

/-! ## `core/utils.py`: `batch`

```python
def batch(iterable, size=96):
    for i in range(0, len(iterable), size):
        yield iterable[i : i + size]
```

The generator yields the slices `iterable[0:size]`, `iterable[size:2*size]`,
… while the start index is `< len(iterable)`; unrolling the `range` loop one
step at a time gives the recursion below (`range(0, n, size)` is empty iff
`n = 0`, and otherwise starts at `0` and continues from `size`, which is
slicing the remainder `iterable[size:]`).  Python requires a positive step,
hence the hypothesis `0 < size`. -/

def batch (l : List α) (size : Nat) (hsize : 0 < size) : List (List α) :=
  match l with
  | [] => []
  | a :: l' => ((a :: l').take size) :: batch ((a :: l').drop size) size hsize
termination_by l.length
decreasing_by
  simp only [List.length_drop, List.length_cons]
  omega

/-! ## `core/utils.py`: `chunk_text`

```python
def chunk_text(text, chunk_size=500, overlap=50):
    tokens = tokenizer.encode(text)
    chunks = []
    start = 0
    while start < len(tokens):
        end = start + chunk_size
        chunk = tokens[start:end]
        chunks.append(tokenizer.decode(chunk))
        start += chunk_size - overlap
    return chunks
```

The `tiktoken` encoder/decoder pair is external; the claims are stated in
terms of token offsets, so the loop is embedded directly on the token list
(a chunk is its token slice; `decode` is left abstract).  The loop advances
`start` by `chunk_size - overlap` each iteration, hence it terminates
exactly when `overlap < chunk_size` (the configuration the repository uses,
`500`/`50`). -/

def chunkLoop (tokens : List α) (chunkSize overlap : Nat)
    (hov : overlap < chunkSize) (start : Nat) : List (List α) :=
  if h : start < tokens.length then
    ((tokens.drop start).take chunkSize) ::
      chunkLoop tokens chunkSize overlap hov (start + (chunkSize - overlap))
  else []
termination_by tokens.length - start
decreasing_by omega

/-- `chunk_text` on the token level: the loop above started at `0`. -/
def chunk_text (tokens : List α) (chunkSize overlap : Nat)
    (hov : overlap < chunkSize) : List (List α) :=
  chunkLoop tokens chunkSize overlap hov 0

/-! ## `core/db.py`: `PineconeDatabase.upsert_records`

```python
def upsert_records(self, session: dict):
    chunks = chunk_text(session["transcript"])
    chunks = [
        {
            "_id": f"{session['commission_id']}-{session['id']}-{i}",
            "session_id": session["id"],
            "commission_id": session["commission_id"],
            "date": int(session["start"].timestamp()),
            "chunk_text": chunk,
        }
        for i, chunk in enumerate(chunks)
    ]
    index = self.pc.Index(host=os.getenv("PINECONE_INDEX_HOST"))
    for batched_chunks in batch(chunks, 96):
        index.upsert_records(namespace="transcript_chunks", records=batched_chunks)
```

The network call `index.upsert_records` is external; the embedding returns
the list of calls performed, i.e. the list of record batches that the final
loop iterates over.  The transcript is carried at the token level (see
`chunk_text` above), and the composite string id
`"{commission_id}-{session_id}-{i}"` is carried as the triple of its
components. -/

/-- One chunk record as built by `upsert_records`. -/
structure ChunkRecord where
  commissionId : Nat
  sessionId : Nat
  idx : Nat
  date : Int
  chunkTokens : List Nat
deriving DecidableEq, Repr

/-- The session fields `upsert_records` reads. -/
structure IndexedSession where
  id : Nat
  commissionId : Nat
  startEpoch : Int
  transcriptTokens : List Nat
deriving DecidableEq, Repr

/-- `PineconeDatabase.upsert_records`, returning the list of upsert calls
(each call carries one batch of records). -/
def upsert_records (session : IndexedSession) : List (List ChunkRecord) :=
  let chunks := chunk_text session.transcriptTokens 500 50 (by norm_num)
  let records := chunks.enum.map fun ic =>
    ChunkRecord.mk session.commissionId session.id ic.1 session.startEpoch ic.2
  batch records 96 (by norm_num)

/-! ## `api/processing/routes.py`: `extract`

```python
today = dt.datetime.now(TZ) - dt.timedelta(hours=12)
start = (dt.datetime.strptime(data.get("start"), "%Y-%m-%d").astimezone(TZ)
         if data.get("start") else commission["last_update"].astimezone(TZ))
end = (dt.datetime.strptime(data.get("finish"), "%Y-%m-%d").astimezone(TZ)
       if data.get("finish") else today)
new_sessions = scraper.process_data(commission_id=commission["id"], start=start, end=end)
if not data.get("finish"):
    db.update_last_scraping(commission["id"], today)
```

Timestamps are minutes (so 12 hours = 720); the optional request dates are
carried already parsed.  The embedding returns the crawl range handed to
`process_data` together with the commission's watermark after the request
(`update_last_scraping` stores `today`; when it is not called the stored
`last_update` is unchanged). -/

/-- The optional `start`/`finish` fields of `api/types.py`'s
`ExtractRequest`, already parsed to timestamps (minutes). -/
structure ExtractRequest where
  start : Option Int
  finish : Option Int
deriving DecidableEq, Repr

/-- The `extract` route: given the current time and the commission's stored
`last_update` watermark, returns `(crawl start, crawl end, watermark after
the request)`. -/
def extract (nowMin lastUpdate : Int) (data : ExtractRequest) : Int × Int × Int :=
  let today := nowMin - 12 * 60
  let start := match data.start with
    | some s => s
    | none => lastUpdate
  let «end» := match data.finish with
    | some f => f
    | none => today
  let watermark := match data.finish with
    | some _ => lastUpdate
    | none => today
  (start, «end», watermark)

/-- Minutes elapsed since `2024-01-01T00:00` local time, for a moment
`2024-01-<day>T<hour>:<min>` (used to state the January-2024 scenario). -/
def jan2024Min (day hour minute : Nat) : Int := ((day - 1) * 1440 + hour * 60 + minute : Nat)

/-! ## `extraction/videos.py`: result selection in `get_video_url`

```python
results[-1 if session["start"].time() < dt.time(hour=12, minute=0) else 0]
```

(Senate variant, lines 295–299, followed by `.find_element(...).get_attribute("href")`
on the download anchor; the Chamber-of-Deputies variant, lines 406–412, clicks the
same selection and reads the download button's href.)  Python's negative
indexing is embedded as `pyIdx`. -/

/-- Python list indexing `l[i]` (negative indices count from the end;
out-of-range raises, modelled as `none`). -/
def pyIdx (l : List α) (i : Int) : Option α :=
  let j : Int := if i < 0 then (l.length : Int) + i else i
  if h : 0 ≤ j ∧ j < (l.length : Int) then some (l.get ⟨j.toNat, by omega⟩) else none

/-- One entry of the filtered on-site search-result list, with the download
link the code extracts after selecting it. -/
structure SiteResult where
  text : List Char
  downloadLink : List Char
deriving DecidableEq, Repr

/-- `SenateVideoProcessor.get_video_url` (download path), after keyword
filtering: selects `results[-1]` before noon, `results[0]` otherwise, and
returns that result's download link. -/
def senateGetVideoUrl (results : List SiteResult) (startTimeMin : Nat) : Option (List Char) :=
  (pyIdx results (if startTimeMin < 12 * 60 then -1 else 0)).map (·.downloadLink)

/-- `ChamberOfDeputiesVideoProcessor.get_video_url` (download path), after
keyword filtering: same selection expression as the Senate variant. -/
def codGetVideoUrl (results : List SiteResult) (startTimeMin : Nat) : Option (List Char) :=
  (pyIdx results (if startTimeMin < 12 * 60 then -1 else 0)).map (·.downloadLink)

/-- The Python runtime errors the legacy resolver below can raise. -/
inductive PyRuntimeError where
  | typeError
  | indexError
deriving DecidableEq, Repr

/-- The legacy `ChamberOfDeputiesVideoProcessor.get_video_url` of
`processing/videos.py` (lines 253–264):

```python
results = results_tab.find_elements(By.CSS_SELECTOR, "article > div:has(input)")
if len(results) > 1:
    time = "am" if session["start"].time < dt.time(hour=12, minute=0) else "pm"
    results = list(filter(lambda x: time in x.text))
results[0].click()
video_url = driver.find_element(By.ID, "btn_descargar").get_attribute("href")
return video_url
```

With more than one result the code evaluates
`session["start"].time < dt.time(hour=12, minute=0)` — `.time` is not
called, so Python 3 raises `TypeError` comparing a bound method object
with a `datetime.time` (and the next line's `list(filter(lambda ...))`
is also malformed, lacking `filter`'s iterable argument).  Otherwise it
clicks `results[0]` — always the first result, whatever the session's
start time — raising `IndexError` on an empty list. -/
def legacyCodGetVideoUrl (results : List SiteResult) (_startTimeMin : Nat) :
    Except PyRuntimeError (List Char) :=
  if results.length > 1 then .error .typeError
  else
    match results with
    | [] => .error .indexError
    | r :: _ => .ok r.downloadLink

/-! ## `extraction/scrapers.py`: `SenateScraper.get_context`

```python
details = driver.find_elements(By.CLASS_NAME, "dynamic-content")
info = []
for element in details:
    data = {}
    try:
        data["topic"] = element.find_element(By.XPATH, "./h4[...'Tema']/following-sibling::p").text
    except NoSuchElementException:
        pass
    try:
        data["aspects"] = element.find_element(By.XPATH, "./h4[...'Aspectos considerados']/...").text
    except NoSuchElementException:
        pass
    try:
        data["agreements"] = element.find_element(By.XPATH, "./h4[...'Acuerdos']/...").text
    except NoSuchElementException:
        pass
    info.append(data)
return info
```

A detail element of the fetched page is embedded as the three optional
texts the three XPath lookups can find; `find_element` raises
`NoSuchElementException` when the node is absent, which the embedding
returns as `Except.error`. -/

/-- A `dynamic-content` element of the Senate session page: the text of
each of the three looked-up nodes, when the page has it. -/
structure DetailElement where
  topic : Option (List Char)
  aspects : Option (List Char)
  agreements : Option (List Char)
deriving DecidableEq, Repr

/-- Selenium `NoSuchElementException`. -/
inductive ScrapeError where
  | noSuchElement
deriving DecidableEq, Repr

/-- `element.find_element(...).text` for one of the three optional nodes:
the text when present, `NoSuchElementException` otherwise. -/
def find_element : Option (List Char) → Except ScrapeError (List Char)
  | some t => .ok t
  | none => .error .noSuchElement

/-- One record of `get_context`'s result: a dict whose three keys are each
present or omitted. -/
structure ContextRecord where
  topic : Option (List Char)
  aspects : Option (List Char)
  agreements : Option (List Char)
deriving DecidableEq, Repr

/-- One `try: data[key] = element.find_element(...).text
except NoSuchElementException: pass` block: the key is set on success and
omitted when the lookup fails. -/
def tryField (f : Option (List Char)) : Option (List Char) :=
  match find_element f with
  | .ok t => some t
  | .error .noSuchElement => none

/-- `SenateScraper.get_context`: one record per detail element.  The only
exception raised inside the loop, `NoSuchElementException`, is caught by
the per-field `try`/`except`, so the function is total. -/
def get_context (details : List DetailElement) : List ContextRecord :=
  details.map fun e =>
    ContextRecord.mk (tryField e.topic) (tryField e.aspects) (tryField e.agreements)

/-! ## `extraction/scrapers.py`: `Scraper.process_data` over
`SenateScraper.get_sessions`

```python
# get_sessions (lines 180-194):
for option in select.options:
    match = re.search(r"(\d{2}/\d{2}/\d{4}) al (\d{2}/\d{2}/\d{4})", option.text)
    start_date = ...; end_date = ...
    if (start <= end_date) and (end >= start_date):
        values.append(option.get_attribute("value"))
sessions = []
for value in list(set(values)):
    ... paginate, parse rows, sessions += new_sessions ...
return sessions

# process_data (lines 58-72):
sessions = self.get_sessions(driver, commission_id, start, end)
sessions = list(filter(lambda s: s["start"] >= start and s["start"] <= end, sessions))
for session in sessions:
    session["context"] = ...; session["attendance"] = ...
return sessions
```

A legislative-period option of the remote `select` is embedded as a
`LegWindow` (its parsed date span and its option value); the paginated row
extraction for one selected window is abstracted as the function
`windowSessions` from the option value to the sessions listed under it.
`list(set(values))` visits each distinct value once in an unspecified
order; the embedding uses `List.dedup` (first occurrences).  The
context/attendance enrichment does not change which sessions are in the
returned list and is omitted. -/

/-- A session row as parsed by `get_sessions`. -/
structure CrawlSession where
  id : Nat
  commissionId : Nat
  start : Int
  finish : Int
deriving DecidableEq, Repr

/-- One option of the `legislatura` select: its parsed date span and its
option value. -/
structure LegWindow where
  startDate : Int
  endDate : Int
  value : Nat
deriving DecidableEq, Repr

/-- `SenateScraper.get_sessions`: keep the windows overlapping
`[start, end]`, then accumulate the rows of each distinct kept window. -/
def get_sessions (options : List LegWindow) (windowSessions : Nat → List CrawlSession)
    (start «end» : Int) : List CrawlSession :=
  let values := (options.filter fun w =>
    decide (start ≤ w.endDate) && decide («end» ≥ w.startDate)).map (·.value)
  values.dedup.flatMap windowSessions

/-- `Scraper.process_data`: the crawl result, i.e. `get_sessions` filtered
to the sessions whose start lies within `[start, end]`. -/
def process_data (options : List LegWindow) (windowSessions : Nat → List CrawlSession)
    (start «end» : Int) : List CrawlSession :=
  (get_sessions options windowSessions start «end»).filter fun s =>
    decide (s.start ≥ start) && decide (s.start ≤ «end»)

/-! ## `processing/videos.py`: `VideoProcessor.get_transcription_from_yt`
and `api/processing/routes.py`: `transcript`

```python
# get_transcription_from_yt (lines 36-90):
response = requests.get('https://www.googleapis.com/youtube/v3/search', params={...})
if response.json()["pageInfo"]["totalResults"] == 0:
    raise YouTubeVideoNotFoundError(session_id=session["id"])
video_match = None
for video in response.json()["items"]:
    if self.check_title(video["snippet"]["title"], session["start"].time()):
        video_match = video
        break
if video_match is None:
    raise YouTubeVideoNotFoundError(session_id=session["id"])
video_id = video_match["id"]["videoId"]
captions = ytt_api.fetch(video_id, languages=('es', ), preserve_formatting=True)
session["transcript"] = ' '.join(map(lambda x: x.text, captions))
return session

# routes.py transcript (lines 101-125):
try:
    result = processor.get_transcription_from_yt(session)
    vector_db = PineconeDatabase(); vector_db.upsert_records(result)
    db.add_session(result)
    if commission["automatic_processing_enabled"]: ...create_task...
    return PlainTextResponse(f"Transcription found for session {session['id']}")
except VideoNotFoundError as e:
    logger.info(...)
    return PlainTextResponse(e.message)
```

The search response is embedded as the candidate list (its
`pageInfo.totalResults` being the number of items), the caption fetch as
the map `captionsOf` from video id to the joined caption text, and the
chamber-specific abstract method `check_title` as an explicit function
argument.  Note on the handler: `core/exceptions.py` defines no
`VideoNotFoundError` — the name `routes.py` imports and catches — while
the processor raises `YouTubeVideoNotFoundError`; the embedding lets the
handler catch the raised media-not-found error, which is the most
charitable reading of the `except` clause.  Even so, the handler performs
no `db.add_session` on that path: the embedding returns, along with the
HTTP response, the list of sessions the handler persists. -/

/-- One item of the YouTube search response. -/
structure YtVideo where
  title : List Char
  videoId : Nat
deriving DecidableEq, Repr

/-- The session fields the transcript stage reads and writes. -/
structure TSession where
  id : Nat
  commissionId : Nat
  startTimeMin : Nat
  transcript : Option (List Char)
deriving DecidableEq, Repr

/-- `YouTubeVideoNotFoundError` (the media-not-found error). -/
inductive YtError where
  | videoNotFound (sessionId : Nat)
deriving DecidableEq, Repr

/-- `VideoProcessor.get_transcription_from_yt`. -/
def get_transcription_from_yt (checkTitle : List Char → Nat → Bool)
    (session : TSession) (items : List YtVideo) (captionsOf : Nat → List Char) :
    Except YtError TSession :=
  if items.length = 0 then .error (.videoNotFound session.id)
  else
    match items.find? (fun v => checkTitle v.title session.startTimeMin) with
    | none => .error (.videoNotFound session.id)
    | some v => .ok { session with transcript := some (captionsOf v.videoId) }

/-- The `PlainTextResponse` bodies the `transcript` route can return. -/
inductive RouteResponse where
  | transcriptionFound (sessionId : Nat)
  | videoNotFoundMsg (sessionId : Nat)
deriving DecidableEq, Repr

/-- The `transcript` route of `api/processing/routes.py`: returns the HTTP
response together with the list of sessions passed to `db.add_session`. -/
def transcript (checkTitle : List Char → Nat → Bool) (session : TSession)
    (items : List YtVideo) (captionsOf : Nat → List Char) :
    RouteResponse × List TSession :=
  match get_transcription_from_yt checkTitle session items captionsOf with
  | .ok result => (.transcriptionFound session.id, [result])
  | .error (.videoNotFound _) => (.videoNotFoundMsg session.id, [])

/-! ## `processing/videos.py`: `ChamberOfDeputiesVideoProcessor.check_title`

```python
def check_title(self, title: str, time: dt.time) -> bool:
    normalized_title = ''.join(c for c in unicodedata.normalize('NFD', title)
                               if unicodedata.category(c) != 'Mn')
    keep, exclude = ("am", "pm") if time < dt.time(hour=12, minute=0) else ("pm", "am")
    pattern = rf"^Comision .*(?: /{keep})?(?<!/{exclude})/( [a-zA-Z]+)? \d{'{1,2}'} [a-zA-Z]+ \d{'{4}'}$"
    return bool(re.match(pattern, normalized_title))
```

After f-string substitution the pattern reads (`am` case)

    ^Comision .*(?: /am)?(?<!/pm)/( [a-zA-Z]+)? \d{1,2} [a-zA-Z]+ \d{4}$

The embedding takes the NFD-normalized title (the normalization strips
combining marks, the identity on the ASCII titles considered here) and
renders the regex by its standard semantics: a match is a decomposition of
the title into the pattern's pieces —

* `^Comision ` : the literal nine-character prefix;
* `.*`         : any characters other than a newline;
* `(?: /am)?`  : optionally the literal ` /am`;
* `(?<!/pm)`   : the three characters before the current position are not
  `/pm` (a zero-width assertion on the prefix matched so far);
* `/( [a-zA-Z]+)? \d{1,2} [a-zA-Z]+ \d{4}` : a slash, an optional
  space-plus-word, then space, 1–2 digits, space, a word, space, 4 digits;
* `$`          : the end of the string, or the position just before a
  terminating newline (Python non-MULTILINE `$`).

Decompositions are expressed with `splitsList`, the list of all ways to
split a character list in two. -/

/-- All decompositions `cs = a ++ b` of a character list. -/
def splitsList : List Char → List (List Char × List Char)
  | [] => [([], [])]
  | c :: cs => ([], c :: cs) :: (splitsList cs).map (fun p => (c :: p.1, p.2))

/-- The literal prefix `Comision ` (nine characters). -/
def COMISION : List Char := ['C', 'o', 'm', 'i', 's', 'i', 'o', 'n', ' ']

/-- The optional group `( [a-zA-Z]+)?`: empty, or a space followed by a
non-empty ASCII word. -/
def optWordOk : List Char → Bool
  | [] => true
  | ' ' :: w => !w.isEmpty && w.all isAlphaCh
  | _ => false

/-- The part of the pattern after the mandatory slash:
`( [a-zA-Z]+)? \d{1,2} [a-zA-Z]+ \d{4}` followed by the end of input. -/
def tailMatch (t : List Char) : Bool :=
  (splitsList t).any fun ow =>
    optWordOk ow.1 &&
    match ow.2 with
    | ' ' :: r2 =>
      (splitsList r2).any fun ds =>
        (decide (1 ≤ ds.1.length) && decide (ds.1.length ≤ 2) && ds.1.all isDigitCh) &&
        match ds.2 with
        | ' ' :: r4 =>
          (splitsList r4).any fun ms =>
            (!ms.1.isEmpty && ms.1.all isAlphaCh) &&
            match ms.2 with
            | ' ' :: ys => decide (ys.length = 4) && ys.all isDigitCh
            | _ => false
        | _ => false
    | _ => false

/-- The part of the pattern before the mandatory slash:
`^Comision .*(?: /keep)?` — the prefix decomposes as the literal
`Comision `, then newline-free filler, then optionally ` /keep`. -/
def prefixOk (keep : List Char) (p : List Char) : Bool :=
  (splitsList p).any fun qB =>
    (decide (qB.2 = []) || decide (qB.2 = ' ' :: '/' :: keep)) &&
    COMISION.isPrefixOf qB.1 &&
    (qB.1.drop 9).all fun c => !(c == '\n')

/-- Full-anchored match of the pattern
`^Comision .*(?: /keep)?(?<!/exclude)/( [a-zA-Z]+)? \d{1,2} [a-zA-Z]+ \d{4}$`
against the whole input: some decomposition at the mandatory slash whose
prefix matches `^Comision .*(?: /keep)?`, does not end in `/exclude`
(the negative lookbehind), and whose tail matches the date part. -/
def matchCoD (keep exclude : List Char) (cs : List Char) : Bool :=
  (splitsList cs).any fun pt =>
    match pt.2 with
    | '/' :: t =>
      prefixOk keep pt.1 &&
      !(('/' :: exclude).isSuffixOf pt.1) &&
      tailMatch t
    | _ => false

/-- `re.match(pattern, s)` for the anchored pattern: Python's `$` also
matches just before a terminating newline. -/
def reMatchCoD (keep exclude : List Char) (cs : List Char) : Bool :=
  matchCoD keep exclude cs ||
    (cs.getLast? == some '\n' && matchCoD keep exclude cs.dropLast)

/-- `ChamberOfDeputiesVideoProcessor.check_title` on the normalized title;
the session start time is minutes after midnight. -/
def check_title (title : List Char) (timeMin : Nat) : Bool :=
  if timeMin < 12 * 60 then reMatchCoD ['a', 'm'] ['p', 'm'] title
  else reMatchCoD ['p', 'm'] ['a', 'm'] title

/-- `tok in title` (Python substring containment), used to state what the
claim asserts about the `am`/`pm` tokens: `tok` occurs contiguously in
`title`. -/
def hasToken (tok title : List Char) : Bool :=
  (splitsList title).any fun p => tok.isPrefixOf p.2

/-- The date part ` 5 enero 2024` used in the concrete title families. -/
def dateTail : List Char := [' ', '5', ' ', 'e', 'n', 'e', 'r', 'o', ' ', '2', '0', '2', '4']

/-- The title fragment ` /am`. -/
def amTag : List Char := [' ', '/', 'a', 'm']

/-- The title fragment ` /pm`. -/
def pmTag : List Char := [' ', '/', 'p', 'm']

/-- All decompositions `cs = a ++ '/' :: t` of a character list at a
slash. -/
def slashSplits (cs : List Char) : List (List Char × List Char) :=
  (splitsList cs).filterMap fun p =>
    match p.2 with
    | '/' :: t => some (p.1, t)
    | _ => none

/-! ## `core/utils.py`: the datetime / ISO-string boundary

```python
ISO_DATETIME_REGEX = re.compile(
    r"^\d{4}-\d{2}-\d{2}"        # YYYY-MM-DD
    r"(T\d{2}:\d{2}:\d{2}"       # Thh:mm:ss
    r"(\.\d+)?"                  # .microseconds (optional)
    r"(Z|[+-]\d{2}:\d{2})?)?$")  # Z or +hh:mm (optional)

def parse_iso_datetime(s):
    try:
        return dt.datetime.fromisoformat(s)
    except ValueError:
        try:
            return dt.date.fromisoformat(s)
        except ValueError:
            return s

def convert_datetime_strings_to_datetime(obj):
    if isinstance(obj, dict): ...recurse...
    elif isinstance(obj, list): ...recurse...
    elif isinstance(obj, str) and ISO_DATETIME_REGEX.match(obj):
        return parse_iso_datetime(obj)
    else:
        return obj

def convert_datetime_in_dict(obj):
    if isinstance(obj, dict): ...recurse...
    elif isinstance(obj, list): ...recurse...
    elif isinstance(obj, dt.datetime): return obj.isoformat()
    elif isinstance(obj, dt.date): return obj.isoformat()
    else:
        return obj
```

Python `datetime.date` / `datetime.datetime` values are embedded as
records of their fields; a `datetime`'s `utcoffset` is carried in whole
minutes (`none` = naive), matching `isoformat`'s `±HH:MM` rendering.
`datetime.isoformat()` prints `YYYY-MM-DDTHH:MM:SS[.ffffff][±HH:MM]`
(the fraction only when microseconds are non-zero); `date.isoformat()`
prints `YYYY-MM-DD`.

The CPython (3.7–3.10) `fromisoformat` parsers are embedded on the
sub-grammar that passes `ISO_DATETIME_REGEX` — in `core/utils.py`,
`parse_iso_datetime` is reached only through that regex gate:
`datetime.fromisoformat` accepts `YYYY-MM-DD[*HH:MM:SS[.fff|.ffffff]
[±HH:MM]]` — note the date-only form parses as midnight — with any single
separator character, rejecting `Z`, and validating calendar/clock ranges;
`date.fromisoformat` accepts exactly `YYYY-MM-DD`. -/

/-- The decimal digit character for `n < 10`. -/
def digitChar (n : Nat) : Char :=
  if n = 0 then '0' else if n = 1 then '1' else if n = 2 then '2'
  else if n = 3 then '3' else if n = 4 then '4' else if n = 5 then '5'
  else if n = 6 then '6' else if n = 7 then '7' else if n = 8 then '8' else '9'

/-- The value of a decimal digit character. -/
def digitVal (c : Char) : Nat := c.toNat - 48

/-- Two-digit zero-padded decimal rendering (`%02d`). -/
def pad2 (n : Nat) : List Char := [digitChar (n / 10), digitChar (n % 10)]

/-- Four-digit zero-padded decimal rendering (`%04d`). -/
def pad4 (n : Nat) : List Char :=
  [digitChar (n / 1000), digitChar (n / 100 % 10), digitChar (n / 10 % 10),
    digitChar (n % 10)]

/-- Six-digit zero-padded decimal rendering (`%06d`, the microseconds). -/
def pad6 (n : Nat) : List Char :=
  [digitChar (n / 100000), digitChar (n / 10000 % 10), digitChar (n / 1000 % 10),
    digitChar (n / 100 % 10), digitChar (n / 10 % 10), digitChar (n % 10)]

/-- Gregorian leap year (as Python's `calendar`/`datetime`). -/
def isLeap (y : Nat) : Bool := (y % 4 = 0 && !(y % 100 = 0)) || y % 400 = 0

/-- Days in a month (Python `datetime` calendar). -/
def daysInMonth (y m : Nat) : Nat :=
  if m = 2 then (if isLeap y then 29 else 28)
  else if m = 4 || m = 6 || m = 9 || m = 11 then 30
  else 31

/-- The field ranges `datetime.date` enforces. -/
def validDate (y m d : Nat) : Bool :=
  decide (1 ≤ y) && decide (y ≤ 9999) && decide (1 ≤ m) && decide (m ≤ 12) &&
  decide (1 ≤ d) && decide (d ≤ daysInMonth y m)

/-- A Python `datetime.date`. -/
structure PyDate where
  year : Nat
  month : Nat
  day : Nat
deriving DecidableEq, Repr

/-- A Python `datetime.datetime`; `offset` is `utcoffset` in whole
minutes (`none` = naive). -/
structure PyDateTime where
  year : Nat
  month : Nat
  day : Nat
  hour : Nat
  minute : Nat
  second : Nat
  usec : Nat
  offset : Option Int
deriving DecidableEq, Repr

/-- The invariants `datetime.date` maintains by construction. -/
def PyDate.valid (d : PyDate) : Bool := validDate d.year d.month d.day

/-- The invariants `datetime.datetime` (whole-minute offset) maintains by
construction. -/
def PyDateTime.valid (d : PyDateTime) : Bool :=
  validDate d.year d.month d.day && decide (d.hour ≤ 23) && decide (d.minute ≤ 59) &&
  decide (d.second ≤ 59) && decide (d.usec ≤ 999999) &&
  (match d.offset with
   | none => true
   | some o => decide (o.natAbs ≤ 1439))

/-- The `±HH:MM` rendering of a whole-minute utcoffset. -/
def isoOffset (o : Int) : List Char :=
  (if o < 0 then '-' else '+') :: (pad2 (o.natAbs / 60) ++ ':' :: pad2 (o.natAbs % 60))

/-- `datetime.date.isoformat()`. -/
def PyDate.isoformat (d : PyDate) : List Char :=
  pad4 d.year ++ '-' :: (pad2 d.month ++ '-' :: pad2 d.day)

/-- `datetime.datetime.isoformat()` (default separator and timespec). -/
def PyDateTime.isoformat (d : PyDateTime) : List Char :=
  pad4 d.year ++ '-' :: (pad2 d.month ++ '-' :: (pad2 d.day ++ 'T' ::
    (pad2 d.hour ++ ':' :: (pad2 d.minute ++ ':' :: (pad2 d.second ++
      ((if d.usec = 0 then [] else '.' :: pad6 d.usec) ++
        (match d.offset with
         | none => []
         | some o => isoOffset o)))))))

/-- Consume exactly `k` digit characters. -/
def readDigits : Nat → List Char → Option (List Char)
  | 0, cs => some cs
  | k + 1, c :: cs => if isDigitCh c then readDigits k cs else none
  | _ + 1, [] => none

/-- Consume one expected literal character. -/
def expectCh (c : Char) : List Char → Option (List Char)
  | x :: cs => if x = c then some cs else none
  | [] => none

/-- Split off the maximal leading run of digit characters. -/
def spanDigits : List Char → List Char × List Char
  | [] => ([], [])
  | c :: cs =>
    if isDigitCh c then
      let p := spanDigits cs
      (c :: p.1, p.2)
    else ([], c :: cs)

/-- Decimal value of a digit string. -/
def valDigits (ds : List Char) : Nat := ds.foldl (fun acc c => acc * 10 + digitVal c) 0

/-- `\d{4}-\d{2}-\d{2}` — the regex's date part. -/
def isoDatePart (cs : List Char) : Option (List Char) :=
  ((((readDigits 4 cs).bind (expectCh '-')).bind (readDigits 2)).bind
    (expectCh '-')).bind (readDigits 2)

/-- `\d{2}:\d{2}:\d{2}` — the regex's time part. -/
def isoTime (r : List Char) : Option (List Char) :=
  ((((readDigits 2 r).bind (expectCh ':')).bind (readDigits 2)).bind
    (expectCh ':')).bind (readDigits 2)

/-- `(\.\d+)?` — the regex's optional fraction. -/
def isoFrac (r : List Char) : Option (List Char) :=
  match r with
  | '.' :: r' =>
    let p := spanDigits r'
    if p.1.isEmpty then none else some p.2
  | _ => some r

/-- `(Z|[+-]\d{2}:\d{2})?$` — the regex's optional timezone and the
anchor: nothing, a final `Z`, or a sign and `HH:MM` ending the string. -/
def isoTz (r : List Char) : Bool :=
  match r with
  | [] => true
  | c :: r' =>
    (c = 'Z' && r'.isEmpty) ||
    ((c = '+' || c = '-') &&
      (match ((readDigits 2 r').bind (expectCh ':')).bind (readDigits 2) with
       | some [] => true
       | _ => false))

/-- `ISO_DATETIME_REGEX` matched against the whole string. -/
def isoRegexFull (cs : List Char) : Bool :=
  match isoDatePart cs with
  | none => false
  | some [] => true
  | some ('T' :: r) =>
    match isoTime r with
    | none => false
    | some r2 =>
      match isoFrac r2 with
      | none => false
      | some r3 => isoTz r3
  | some _ => false

/-- `ISO_DATETIME_REGEX.match(s)` as a boolean: Python's `$` also matches
just before a terminating newline. -/
def isoRegexMatch (cs : List Char) : Bool :=
  isoRegexFull cs || (cs.getLast? == some '\n' && isoRegexFull cs.dropLast)

/-- Read a two-digit decimal number. -/
def read2 (cs : List Char) : Option (Nat × List Char) :=
  match cs with
  | a :: b :: r =>
    if isDigitCh a && isDigitCh b then some (digitVal a * 10 + digitVal b, r)
    else none
  | _ => none

/-- Read a four-digit decimal number. -/
def read4 (cs : List Char) : Option (Nat × List Char) :=
  match cs with
  | a :: b :: c :: d :: r =>
    if isDigitCh a && isDigitCh b && isDigitCh c && isDigitCh d then
      some (((digitVal a * 10 + digitVal b) * 10 + digitVal c) * 10 + digitVal d, r)
    else none
  | _ => none

/-- Parse the `YYYY-MM-DD` front of an isoformat string. -/
def readDate (cs : List Char) : Option (Nat × Nat × Nat × List Char) :=
  match read4 cs with
  | none => none
  | some (y, r1) =>
    match expectCh '-' r1 with
    | none => none
    | some r2 =>
      match read2 r2 with
      | none => none
      | some (mo, r3) =>
        match expectCh '-' r3 with
        | none => none
        | some r4 =>
          match read2 r4 with
          | none => none
          | some (d, r5) => some (y, mo, d, r5)

/-- Parse the optional `.fff` / `.ffffff` fraction (CPython < 3.11 accepts
exactly three or six fractional digits), yielding microseconds. -/
def readFrac (r : List Char) : Option (Nat × List Char) :=
  match r with
  | '.' :: r' =>
    let p := spanDigits r'
    if p.1.length = 6 then some (valDigits p.1, p.2)
    else if p.1.length = 3 then some (valDigits p.1 * 1000, p.2)
    else none
  | _ => some (0, r)

/-- Parse a trailing `HH:MM` into minutes; the offset magnitude must stay
below 24 hours (`datetime.timezone`'s requirement). -/
def readHM (r : List Char) : Option Nat :=
  match read2 r with
  | none => none
  | some (hh, r1) =>
    match expectCh ':' r1 with
    | none => none
    | some r2 =>
      match read2 r2 with
      | none => none
      | some (mm, r3) =>
        match r3 with
        | [] => if hh * 60 + mm ≤ 1439 then some (hh * 60 + mm) else none
        | _ => none

/-- Parse the optional trailing `±HH:MM` utcoffset (CPython < 3.11
rejects `Z`). -/
def readOffset (r : List Char) : Option (Option Int) :=
  match r with
  | [] => some none
  | '+' :: r' => (readHM r').map fun m => some (Int.ofNat m)
  | '-' :: r' => (readHM r').map fun m => some (-(Int.ofNat m))
  | _ => none

/-- Parse the `HH:MM:SS[.fff|.ffffff][±HH:MM]` tail of an isoformat
string. -/
def readTime (r : List Char) : Option (Nat × Nat × Nat × Nat × Option Int) :=
  match read2 r with
  | none => none
  | some (h, r1) =>
    match expectCh ':' r1 with
    | none => none
    | some r2 =>
      match read2 r2 with
      | none => none
      | some (mi, r3) =>
        match expectCh ':' r3 with
        | none => none
        | some r4 =>
          match read2 r4 with
          | none => none
          | some (s, r5) =>
            if decide (h ≤ 23) && decide (mi ≤ 59) && decide (s ≤ 59) then
              match readFrac r5 with
              | none => none
              | some (us, r6) =>
                match readOffset r6 with
                | none => none
                | some off => some (h, mi, s, us, off)
            else none

/-- `datetime.datetime.fromisoformat` on the regex-gated grammar: the
date-only form yields midnight naive; otherwise one separator character
then the time tail. -/
def fromisoformatDT (cs : List Char) : Option PyDateTime :=
  match readDate cs with
  | none => none
  | some (y, mo, d, rest) =>
    if validDate y mo d then
      match rest with
      | [] => some (PyDateTime.mk y mo d 0 0 0 0 none)
      | _ :: r =>
        match readTime r with
        | none => none
        | some (h, mi, s, us, off) => some (PyDateTime.mk y mo d h mi s us off)
    else none

/-- `datetime.date.fromisoformat`: exactly `YYYY-MM-DD`. -/
def fromisoformatDate (cs : List Char) : Option PyDate :=
  match readDate cs with
  | none => none
  | some (y, mo, d, rest) =>
    match rest with
    | [] => if validDate y mo d then some (PyDate.mk y mo d) else none
    | _ => none

/-- A JSON-ish Python value as handled by the two converters: strings,
datetimes, dates, numbers, booleans, lists, dicts. -/
inductive Val where
  | vstr (s : List Char)
  | vdt (d : PyDateTime)
  | vdate (d : PyDate)
  | vint (n : Int)
  | vbool (b : Bool)
  | vlist (xs : List Val)
  | vdict (kvs : List (List Char × Val))
deriving Repr

/-- `parse_iso_datetime`. -/
def parse_iso_datetime (cs : List Char) : Val :=
  match fromisoformatDT cs with
  | some d => .vdt d
  | none =>
    match fromisoformatDate cs with
    | some dd => .vdate dd
    | none => .vstr cs

mutual

/-- `convert_datetime_in_dict`: serialize every datetime/date to its
isoformat string, recursing through dicts and lists. -/
def convert_datetime_in_dict : Val → Val
  | .vstr s => .vstr s
  | .vdt d => .vstr d.isoformat
  | .vdate d => .vstr d.isoformat
  | .vint n => .vint n
  | .vbool b => .vbool b
  | .vlist xs => .vlist (cdiList xs)
  | .vdict kvs => .vdict (cdiDict kvs)

/-- `convert_datetime_in_dict` over a list (the list comprehension). -/
def cdiList : List Val → List Val
  | [] => []
  | v :: vs => convert_datetime_in_dict v :: cdiList vs

/-- `convert_datetime_in_dict` over dict entries (the dict
comprehension). -/
def cdiDict : List (List Char × Val) → List (List Char × Val)
  | [] => []
  | (k, v) :: kvs => (k, convert_datetime_in_dict v) :: cdiDict kvs

end

mutual

/-- `convert_datetime_strings_to_datetime`: parse every regex-matching
string back, recursing through dicts and lists. -/
def convert_datetime_strings_to_datetime : Val → Val
  | .vstr s => if isoRegexMatch s then parse_iso_datetime s else .vstr s
  | .vdt d => .vdt d
  | .vdate d => .vdate d
  | .vint n => .vint n
  | .vbool b => .vbool b
  | .vlist xs => .vlist (cdsList xs)
  | .vdict kvs => .vdict (cdsDict kvs)

/-- `convert_datetime_strings_to_datetime` over a list. -/
def cdsList : List Val → List Val
  | [] => []
  | v :: vs => convert_datetime_strings_to_datetime v :: cdsList vs

/-- `convert_datetime_strings_to_datetime` over dict entries. -/
def cdsDict : List (List Char × Val) → List (List Char × Val)
  | [] => []
  | (k, v) :: kvs => (k, convert_datetime_strings_to_datetime v) :: cdsDict kvs

end

mutual

/-- The amended round-trip hypotheses: every datetime is a valid,
timezone-aware Python datetime (whole-minute offset), there are no bare
`date` values, and no pre-existing string matches the ISO pattern. -/
def goodVal : Val → Bool
  | .vstr s => !isoRegexMatch s
  | .vdt d => d.valid && d.offset.isSome
  | .vdate _ => false
  | .vint _ => true
  | .vbool _ => true
  | .vlist xs => goodValList xs
  | .vdict kvs => goodValDict kvs

/-- `goodVal` over a list. -/
def goodValList : List Val → Bool
  | [] => true
  | v :: vs => goodVal v && goodValList vs

/-- `goodVal` over dict entries. -/
def goodValDict : List (List Char × Val) → Bool
  | [] => true
  | (_, v) :: kvs => goodVal v && goodValDict kvs

end

mutual

/-- The hypotheses of claim C9 as stated: every DATETIME value is
timezone-aware (and a valid Python value), no pre-existing string matches
the ISO pattern — bare `date` values are unconstrained. -/
def claimGood : Val → Bool
  | .vstr s => !isoRegexMatch s
  | .vdt d => d.valid && d.offset.isSome
  | .vdate d => d.valid
  | .vint _ => true
  | .vbool _ => true
  | .vlist xs => claimGoodList xs
  | .vdict kvs => claimGoodDict kvs

/-- `claimGood` over a list. -/
def claimGoodList : List Val → Bool
  | [] => true
  | v :: vs => claimGood v && claimGoodList vs

/-- `claimGood` over dict entries. -/
def claimGoodDict : List (List Char × Val) → Bool
  | [] => true
  | (_, v) :: kvs => claimGood v && claimGoodDict kvs

end

/-! # Theorems

Helper lemmas first, then one theorem (plus witness / counterexample where
required) per specification claim. -/

theorem batch_nil (size : Nat) (h : 0 < size) : batch ([] : List α) size h = [] := by
  rw [batch]

theorem batch_cons (l : List α) (size : Nat) (h : 0 < size) (hl : l ≠ []) :
    batch l size h = l.take size :: batch (l.drop size) size h := by
  match l with
  | [] => exact absurd rfl hl
  | a :: l' => rw [batch]

/-- Auxiliary: the number of batches is `⌈n / size⌉`, computed as
`(n + size - 1) / size`. -/
theorem batch_length (size : Nat) (h : 0 < size) :
    ∀ (n : Nat) (l : List α), l.length = n →
      (batch l size h).length = (l.length + size - 1) / size := by
  intro n
  induction n using Nat.strong_induction_on with
  | _ n ih =>
    intro l hn
    by_cases hl : l = []
    · subst hl
      rw [batch_nil]
      simp only [List.length_nil, Nat.zero_add]
      exact (Nat.div_eq_of_lt (by omega)).symm
    · rw [batch_cons _ _ _ hl]
      have hlen : 0 < l.length := List.length_pos.mpr hl
      have hdrop : (l.drop size).length = l.length - size := List.length_drop ..
      have := ih (l.length - size) (by omega) (l.drop size) hdrop
      rw [List.length_cons, this, hdrop]
      rcases Nat.le_total size l.length with hle | hle
      · have : l.length - size + size - 1 + size = l.length + size - 1 := by omega
        rw [← this, Nat.add_div_right _ h]
      · have h1 : l.length - size = 0 := by omega
        rw [h1]
        have h2 : (0 + size - 1) / size = 0 := Nat.div_eq_of_lt (by omega)
        have h3 : l.length + size - 1 = (l.length - 1) + size := by omega
        rw [h2, h3, Nat.add_div_right _ h, Nat.div_eq_of_lt (by omega)]

theorem batch_sizes (size : Nat) (h : 0 < size) :
    ∀ (n : Nat) (l : List α), l.length = n →
      ∀ b ∈ batch l size h, b.length ≤ size := by
  intro n
  induction n using Nat.strong_induction_on with
  | _ n ih =>
    intro l hn b hb
    by_cases hl : l = []
    · subst hl; rw [batch_nil] at hb; simp at hb
    · rw [batch_cons _ _ _ hl] at hb
      have hlen : 0 < l.length := List.length_pos.mpr hl
      rcases List.mem_cons.mp hb with rfl | hb'
      · simpa using List.length_take_le size l
      · exact ih (l.length - size) (by omega) (l.drop size) (List.length_drop ..) b hb'

theorem batch_join (size : Nat) (h : 0 < size) :
    ∀ (n : Nat) (l : List α), l.length = n → (batch l size h).flatten = l := by
  intro n
  induction n using Nat.strong_induction_on with
  | _ n ih =>
    intro l hn
    by_cases hl : l = []
    · subst hl; rw [batch_nil]; rfl
    · rw [batch_cons _ _ _ hl]
      have hlen : 0 < l.length := List.length_pos.mpr hl
      rw [List.flatten_cons,
        ih (l.length - size) (by omega) (l.drop size) (List.length_drop ..)]
      exact List.take_append_drop size l

theorem chunkLoop_stop (tokens : List α) (cs ov : Nat) (h : ov < cs) (start : Nat)
    (hge : tokens.length ≤ start) : chunkLoop tokens cs ov h start = [] := by
  rw [chunkLoop]
  simp [Nat.not_lt.mpr hge]

theorem chunkLoop_step (tokens : List α) (cs ov : Nat) (h : ov < cs) (start : Nat)
    (hlt : start < tokens.length) :
    chunkLoop tokens cs ov h start =
      ((tokens.drop start).take cs) :: chunkLoop tokens cs ov h (start + (cs - ov)) := by
  rw [chunkLoop]
  simp [hlt]

/-- The chunk loop with step `450` (= 500 − 50) started at `start` yields one
chunk per start offset `start + 450·k` that is `< tokens.length`. -/
theorem chunkLoop_500_50 (tokens : List α) (h : (50 : Nat) < 500) :
    ∀ (fuel start : Nat), tokens.length - start ≤ fuel →
      chunkLoop tokens 500 50 h start =
        (List.range ((tokens.length - start + 449) / 450)).map
          (fun k => (tokens.drop (start + 450 * k)).take 500) := by
  intro fuel
  induction fuel with
  | zero =>
    intro start hf
    have hge : tokens.length ≤ start := by omega
    rw [chunkLoop_stop _ _ _ _ _ hge]
    have : tokens.length - start = 0 := by omega
    simp [this]
  | succ m ih =>
    intro start hf
    by_cases hlt : start < tokens.length
    · rw [chunkLoop_step _ _ _ _ _ hlt]
      have hstep : (500 : Nat) - 50 = 450 := by norm_num
      rw [hstep]
      have ih' := ih (start + 450) (by omega)
      rw [ih']
      have hcount : (tokens.length - start + 449) / 450 =
          (tokens.length - (start + 450) + 449) / 450 + 1 := by
        omega
      rw [hcount, List.range_succ_eq_map, List.map_cons, List.map_map]
      simp only [List.cons.injEq]
      refine ⟨by simp, ?_⟩
      apply List.map_congr_left
      intro k _
      simp only [Function.comp_apply]
      have harg : start + 450 + 450 * k = start + 450 * (k + 1) := by ring
      rw [harg]
    · rw [chunkLoop_stop _ _ _ _ _ (by omega)]
      have : tokens.length - start = 0 := by omega
      simp [this]

theorem pyIdx_neg_one (l : List α) (h : l ≠ []) : pyIdx l (-1) = some (l.getLast h) := by
  have hl : 0 < l.length := List.length_pos.mpr h
  unfold pyIdx
  have hcond : ((-1 : Int) < 0) = True := by simp
  simp only [hcond, if_true]
  rw [dif_pos (by constructor <;> omega)]
  congr 1
  rw [List.getLast_eq_getElem, List.get_eq_getElem]
  congr 1
  show ((l.length : Int) + -1).toNat = l.length - 1
  omega

theorem pyIdx_zero (l : List α) (h : l ≠ []) : pyIdx l 0 = some (l.head h) := by
  have hl : 0 < l.length := List.length_pos.mpr h
  unfold pyIdx
  simp only [show ¬((0 : Int) < 0) by omega, if_false]
  rw [dif_pos (by constructor <;> omega)]
  congr 1
  rw [List.head_eq_getElem_zero h, List.get_eq_getElem]
  rfl

/-- C6: for every list of `N` chunks and every batch size `s ≥ 1`,
`batch` yields exactly `⌈N/s⌉` batches (computed as `(N + s - 1) / s`),
each of size at most `s`, whose in-order concatenation equals the original
list — no element is dropped when `N` is not a multiple of `s`. -/
theorem C6_batch_exhaustive (l : List α) (size : Nat) (hsize : 0 < size) :
    (batch l size hsize).length = (l.length + size - 1) / size ∧
    (∀ b ∈ batch l size hsize, b.length ≤ size) ∧
    (batch l size hsize).flatten = l :=
  ⟨batch_length size hsize l.length l rfl, batch_sizes size hsize l.length l rfl,
    batch_join size hsize l.length l rfl⟩

/-- Witness for C6: five chunks with batch size two give three batches
(`⌈5/2⌉`), none larger than two, concatenating back to the input. -/
theorem C6_batch_exhaustive_witness :
    0 < 2 ∧
    ((batch [10, 11, 12, 13, 14] 2 (by norm_num)).length = 3 ∧
      (∀ b ∈ batch [10, 11, 12, 13, 14] 2 (by norm_num), b.length ≤ 2) ∧
      (batch [10, 11, 12, 13, 14] 2 (by norm_num)).flatten = [10, 11, 12, 13, 14]) :=
  ⟨by norm_num, C6_batch_exhaustive [10, 11, 12, 13, 14] 2 (by norm_num)⟩

/-- C3: for every token list with `N > 0` tokens, chunk size `500` and
overlap `50`, `chunk_text` yields `⌈N/450⌉` passages, and passage `k`
covers the token offsets `[k·450, k·450 + 500)` (the final passage being
truncated at `N`). -/
theorem C3_chunk_text_offsets (tokens : List α) (hN : 0 < tokens.length) :
    (chunk_text tokens 500 50 (by norm_num)).length = (tokens.length + 449) / 450 ∧
    ∀ k : Nat, k < (tokens.length + 449) / 450 →
      (chunk_text tokens 500 50 (by norm_num))[k]? =
        some ((tokens.drop (450 * k)).take 500) := by
  have h := chunkLoop_500_50 tokens (by norm_num) tokens.length 0 (by omega)
  rw [Nat.sub_zero] at h
  constructor
  · rw [chunk_text, h]
    simp
  · intro k hk
    rw [chunk_text, h, List.getElem?_map, List.getElem?_range (by simpa using hk)]
    simp

/-- Witness for C3, the spec's scenario: a 1200-token transcript yields
exactly three chunks, covering token offsets `[0,500)`, `[450,950)` and
`[900,1200)`. -/
theorem C3_chunk_text_offsets_witness :
    0 < (List.range 1200).length ∧
    (chunk_text (List.range 1200) 500 50 (by norm_num)).length = 3 ∧
    (chunk_text (List.range 1200) 500 50 (by norm_num))[0]? =
      some (((List.range 1200).drop 0).take 500) ∧
    (chunk_text (List.range 1200) 500 50 (by norm_num))[1]? =
      some (((List.range 1200).drop 450).take 500) ∧
    (chunk_text (List.range 1200) 500 50 (by norm_num))[2]? =
      some (((List.range 1200).drop 900).take 500) := by
  have h := C3_chunk_text_offsets (List.range 1200) (by simp)
  have hl : ((List.range 1200).length + 449) / 450 = 3 := by norm_num
  have h2 := h.2
  simp only [hl] at h2
  refine ⟨by simp, h.1.trans hl, ?_, ?_, ?_⟩
  · simpa using h2 0 (by norm_num)
  · simpa using h2 1 (by norm_num)
  · simpa using h2 2 (by norm_num)

/-- C10: a session whose transcript tokenizes to the empty token list
produces no chunks (`chunk_text` returns `[]`) and `upsert_records`
performs zero upsert calls — indexing an empty transcript is a no-op,
not an error. -/
theorem C10_empty_transcript_noop (session : IndexedSession)
    (h : session.transcriptTokens = []) :
    chunk_text session.transcriptTokens 500 50 (by norm_num) = [] ∧
    upsert_records session = [] := by
  have hc : chunk_text session.transcriptTokens 500 50 (by norm_num) = [] := by
    rw [h, chunk_text, chunkLoop_stop]
    simp
  refine ⟨hc, ?_⟩
  rw [upsert_records]
  simp only [hc, List.enum_nil, List.map_nil]
  exact batch_nil 96 (by norm_num)

/-- Witness for C10 at a concrete session with an empty transcript. -/
theorem C10_empty_transcript_noop_witness :
    (IndexedSession.mk 5 3309 1700000000 []).transcriptTokens = [] ∧
    (chunk_text (IndexedSession.mk 5 3309 1700000000 []).transcriptTokens 500 50
        (by norm_num) = [] ∧
      upsert_records (IndexedSession.mk 5 3309 1700000000 []) = []) :=
  ⟨rfl, C10_empty_transcript_noop _ rfl⟩

/-- C5: with no explicit finish date, the crawl end and the new watermark
are both `now − 12 h`; with no explicit start date the crawl start is the
stored `last_update`; with an explicit finish date the watermark is left
unchanged. -/
theorem C5_extract_watermark (nowMin lastUpdate : Int) (data : ExtractRequest) :
    (data.start = none → (extract nowMin lastUpdate data).1 = lastUpdate) ∧
    (data.finish = none →
      (extract nowMin lastUpdate data).2.1 = nowMin - 12 * 60 ∧
      (extract nowMin lastUpdate data).2.2 = nowMin - 12 * 60) ∧
    (∀ f, data.finish = some f →
      (extract nowMin lastUpdate data).2.1 = f ∧
      (extract nowMin lastUpdate data).2.2 = lastUpdate) := by
  obtain ⟨s, f⟩ := data
  refine ⟨?_, ?_, ?_⟩
  · intro hs
    cases hs
    cases f <;> rfl
  · intro hf
    cases hf
    cases s <;> exact ⟨rfl, rfl⟩
  · intro f' hf
    cases hf
    cases s <;> exact ⟨rfl, rfl⟩

/-- Witness for C5, the spec's scenario: `last_update = 2024-01-01`,
triggered `2024-01-15T00:00` with neither date pinned → crawl range
`[2024-01-01, 2024-01-14T12:00]` and watermark advanced to
`2024-01-14T12:00`. -/
theorem C5_extract_watermark_witness :
    (ExtractRequest.mk none none).start = none ∧
    (ExtractRequest.mk none none).finish = none ∧
    (extract (jan2024Min 15 0 0) (jan2024Min 1 0 0) (ExtractRequest.mk none none)).1 =
      jan2024Min 1 0 0 ∧
    (extract (jan2024Min 15 0 0) (jan2024Min 1 0 0) (ExtractRequest.mk none none)).2.1 =
      jan2024Min 14 12 0 ∧
    (extract (jan2024Min 15 0 0) (jan2024Min 1 0 0) (ExtractRequest.mk none none)).2.2 =
      jan2024Min 14 12 0 := by
  have h := C5_extract_watermark (jan2024Min 15 0 0) (jan2024Min 1 0 0)
    (ExtractRequest.mk none none)
  have heq : jan2024Min 15 0 0 - 12 * 60 = jan2024Min 14 12 0 := by
    norm_num [jan2024Min]
  refine ⟨rfl, rfl, h.1 rfl, ?_, ?_⟩
  · rw [(h.2.1 rfl).1, heq]
  · rw [(h.2.1 rfl).2, heq]

/-- C7, behaviour at the cited resolvers: on a non-empty filtered result
list, both `extraction/videos.py` download-path resolvers select the last
result when the session starts before 12:00 and the first result
otherwise, and return that result's download link — as the claim states.
The legacy `processing/videos.py` Chamber-of-Deputies variant, also cited
by the claim, does NOT implement this selection: with more than one
result it raises `TypeError` (the failing input), and with a single
result it always takes the first, whatever the session's start time. -/
theorem C7_download_selection (results : List SiteResult) (t : Nat)
    (hne : results ≠ []) :
    (senateGetVideoUrl results t =
      some ((if t < 12 * 60 then results.getLast hne else results.head hne).downloadLink)) ∧
    (codGetVideoUrl results t =
      some ((if t < 12 * 60 then results.getLast hne else results.head hne).downloadLink)) ∧
    (1 < results.length → legacyCodGetVideoUrl results t = .error .typeError) ∧
    (∀ r : SiteResult, legacyCodGetVideoUrl [r] t = .ok r.downloadLink) := by
  have hsel : pyIdx results (if t < 12 * 60 then (-1 : Int) else 0) =
      some (if t < 12 * 60 then results.getLast hne else results.head hne) := by
    by_cases ht : t < 12 * 60
    · simp only [ht, if_true]
      exact pyIdx_neg_one _ hne
    · simp only [ht, if_false]
      exact pyIdx_zero _ hne
  refine ⟨?_, ?_, ?_, ?_⟩
  · rw [senateGetVideoUrl, hsel]
    rfl
  · rw [codGetVideoUrl, hsel]
    rfl
  · intro hlen
    rw [legacyCodGetVideoUrl.eq_def, if_pos hlen]
  · intro r
    rfl

theorem tryField_eq (f : Option (List Char)) : tryField f = f := by
  cases f <;> rfl

/-- C2, behaviour at the failing input: when the search returns zero items
(or no candidate title matches), the resolver raises the media-not-found
error without attaching a transcript — but the `transcript` route of
`api/processing/routes.py`, after catching it, returns the error message
as a non-error response WITHOUT persisting any session record (the
persisted list is empty, not the transcript-less session the claim — and
the Flask twin `services/processing/app.py` — describe). -/
theorem C2_media_not_found_divergence (checkTitle : List Char → Nat → Bool)
    (session : TSession) (items : List YtVideo) (captionsOf : Nat → List Char)
    (hnone : items = [] ∨
      ∀ v ∈ items, checkTitle v.title session.startTimeMin = false) :
    get_transcription_from_yt checkTitle session items captionsOf =
      .error (.videoNotFound session.id) ∧
    transcript checkTitle session items captionsOf =
      (.videoNotFoundMsg session.id, []) := by
  have herr : get_transcription_from_yt checkTitle session items captionsOf =
      .error (.videoNotFound session.id) := by
    rcases hnone with rfl | hall
    · rfl
    · rw [get_transcription_from_yt]
      by_cases hlen : items.length = 0
      · simp [hlen]
      · have hfind : items.find? (fun v => checkTitle v.title session.startTimeMin)
            = none :=
          List.find?_eq_none.mpr fun v hv => by simp [hall v hv]
        simp [hlen, hfind]
  exact ⟨herr, by rw [transcript, herr]⟩

/-- Witness for C2's divergence theorem, at the spec scenario: a session
starting at 10:00 and a search returning zero items. -/
theorem C2_media_not_found_divergence_witness :
    (([] : List YtVideo) = [] ∨
      ∀ v ∈ ([] : List YtVideo),
        (fun (_ : List Char) (_ : Nat) => false) v.title
          (TSession.mk 100 1 600 none).startTimeMin = false) ∧
    (get_transcription_from_yt (fun _ _ => false) (TSession.mk 100 1 600 none) []
        (fun _ => []) = .error (.videoNotFound 100) ∧
      transcript (fun _ _ => false) (TSession.mk 100 1 600 none) [] (fun _ => []) =
        (.videoNotFoundMsg 100, [])) :=
  ⟨Or.inl rfl,
    C2_media_not_found_divergence (fun _ _ => false) (TSession.mk 100 1 600 none) []
      (fun _ => []) (Or.inl rfl)⟩

/-- C8: the Senate context extractor returns one record per detail
element; each optional key (`topic`, `aspects`, `agreements`) is present
in a record exactly when the page has the node, carrying its text, and is
omitted otherwise — with no error raised (the function is total; both
points of the claim are the stated equation). -/
theorem C8_get_context_optional (details : List DetailElement) :
    (get_context details).length = details.length ∧
    ∀ (i : Nat) (hi : i < details.length),
      (get_context details)[i]? =
        some (ContextRecord.mk (details.get ⟨i, hi⟩).topic
          (details.get ⟨i, hi⟩).aspects (details.get ⟨i, hi⟩).agreements) := by
  refine ⟨by simp [get_context], ?_⟩
  intro i hi
  rw [get_context, List.getElem?_map, List.getElem?_eq_getElem hi]
  simp [tryField_eq, List.get_eq_getElem]

/-- Witness for C8: a page with one partially-filled element (no
`aspects`) and one empty element extracts both records, omitting exactly
the missing keys. -/
theorem C8_get_context_optional_witness :
    (get_context [DetailElement.mk (some ['t']) none (some ['g']),
        DetailElement.mk none none none]).length = 2 ∧
    (get_context [DetailElement.mk (some ['t']) none (some ['g']),
        DetailElement.mk none none none])[0]? =
      some (ContextRecord.mk (some ['t']) none (some ['g'])) ∧
    (get_context [DetailElement.mk (some ['t']) none (some ['g']),
        DetailElement.mk none none none])[1]? =
      some (ContextRecord.mk none none none) := by
  have h := C8_get_context_optional
    [DetailElement.mk (some ['t']) none (some ['g']), DetailElement.mk none none none]
  exact ⟨h.1, h.2 0 (by norm_num), h.2 1 (by norm_num)⟩

/-- C4 (amended): as a set, the crawl result is exactly the union of the
extraction results of the overlapping windows restricted to sessions
starting within `[start, end]`; duplicates are however NOT removed (see
the counterexample), only window values are deduplicated. -/
theorem C4_process_data_union (options : List LegWindow)
    (windowSessions : Nat → List CrawlSession) (start «end» : Int) :
    ∀ s : CrawlSession,
      s ∈ process_data options windowSessions start «end» ↔
        ((∃ w ∈ options, (start ≤ w.endDate ∧ «end» ≥ w.startDate) ∧
            s ∈ windowSessions w.value) ∧
          start ≤ s.start ∧ s.start ≤ «end») := by
  intro s
  rw [process_data, List.mem_filter, get_sessions]
  simp only [List.mem_flatMap, List.mem_dedup, List.mem_map, List.mem_filter,
    Bool.and_eq_true, decide_eq_true_eq]
  constructor
  · rintro ⟨⟨v, ⟨w, ⟨hw, hov1, hov2⟩, hv⟩, hs⟩, h1, h2⟩
    exact ⟨⟨w, hw, ⟨hov1, hov2⟩, hv ▸ hs⟩, h1, h2⟩
  · rintro ⟨⟨w, hw, ⟨hov1, hov2⟩, hs⟩, h1, h2⟩
    exact ⟨⟨w.value, ⟨w, ⟨hw, hov1, hov2⟩, rfl⟩, hs⟩, h1, h2⟩

/-- Counterexample for C4 as stated: two distinct overlapping windows that
both list the same session make `process_data` return that session twice —
the crawl does not deduplicate by `(commission id, session id)`. -/
theorem C4_process_data_counterexample :
    process_data [LegWindow.mk 0 10 1, LegWindow.mk 0 10 2]
        (fun _ => [CrawlSession.mk 7 1 5 6]) 0 10 =
      [CrawlSession.mk 7 1 5 6, CrawlSession.mk 7 1 5 6] ∧
    ¬ (process_data [LegWindow.mk 0 10 1, LegWindow.mk 0 10 2]
        (fun _ => [CrawlSession.mk 7 1 5 6]) 0 10).Pairwise
        (fun a b => (a.commissionId, a.id) ≠ (b.commissionId, b.id)) := by
  constructor
  · rfl
  · intro hpw
    have heq : process_data [LegWindow.mk 0 10 1, LegWindow.mk 0 10 2]
        (fun _ => [CrawlSession.mk 7 1 5 6]) 0 10 =
        [CrawlSession.mk 7 1 5 6, CrawlSession.mk 7 1 5 6] := rfl
    rw [heq] at hpw
    exact (List.pairwise_cons.mp hpw).1 _ (by simp) rfl

/-- Witness for C7 at the failing input: with two results, a 09:00
session picks the last one and a 15:00 session picks the first one in
the `extraction/videos.py` resolvers, while the legacy
`processing/videos.py` variant raises `TypeError` on those same two
results and takes the first (not the last) of a singleton. -/
theorem C7_download_selection_witness :
    ([SiteResult.mk ['a'] ['u'], SiteResult.mk ['b'] ['v']] ≠ []) ∧
    senateGetVideoUrl [SiteResult.mk ['a'] ['u'], SiteResult.mk ['b'] ['v']] 540 =
      some ['v'] ∧
    codGetVideoUrl [SiteResult.mk ['a'] ['u'], SiteResult.mk ['b'] ['v']] 900 =
      some ['u'] ∧
    legacyCodGetVideoUrl [SiteResult.mk ['a'] ['u'], SiteResult.mk ['b'] ['v']] 540 =
      .error .typeError ∧
    legacyCodGetVideoUrl [SiteResult.mk ['a'] ['u']] 540 = .ok ['u'] := by
  have h1 := C7_download_selection
    [SiteResult.mk ['a'] ['u'], SiteResult.mk ['b'] ['v']] 540 (by simp)
  have h2 := C7_download_selection
    [SiteResult.mk ['a'] ['u'], SiteResult.mk ['b'] ['v']] 900 (by simp)
  refine ⟨by simp, ?_, ?_, ?_, ?_⟩
  · rw [h1.1]
    rfl
  · rw [h2.2.1]
    rfl
  · exact h1.2.2.1 (by norm_num)
  · exact h1.2.2.2 (SiteResult.mk ['a'] ['u'])

theorem mem_splitsList : ∀ (cs a b : List Char), (a, b) ∈ splitsList cs ↔ cs = a ++ b := by
  intro cs
  induction cs with
  | nil =>
    intro a b
    simp only [splitsList, List.mem_singleton, Prod.mk.injEq]
    constructor
    · rintro ⟨rfl, rfl⟩
      rfl
    · intro h
      exact ⟨(List.append_eq_nil.mp h.symm).1, (List.append_eq_nil.mp h.symm).2⟩
  | cons c cs ih =>
    intro a b
    simp only [splitsList, List.mem_cons, List.mem_map, Prod.mk.injEq]
    constructor
    · rintro (⟨rfl, rfl⟩ | ⟨⟨p1, p2⟩, hmem, rfl, rfl⟩)
      · rfl
      · rw [(ih p1 p2).mp hmem]
        rfl
    · intro h
      cases a with
      | nil =>
        left
        refine ⟨rfl, ?_⟩
        simpa using h.symm
      | cons a1 a' =>
        right
        injection h with hc hcs
        refine ⟨(a', b), (ih a' b).mpr hcs, ?_, rfl⟩
        rw [hc]

theorem mem_slashSplits (cs a t : List Char) :
    (a, t) ∈ slashSplits cs ↔ cs = a ++ '/' :: t := by
  unfold slashSplits
  rw [List.mem_filterMap]
  constructor
  · rintro ⟨⟨a', r⟩, hmem, hsome⟩
    rw [mem_splitsList] at hmem
    split at hsome
    · rename_i t' heq
      simp only [Option.some.injEq, Prod.mk.injEq] at hsome
      obtain ⟨rfl, rfl⟩ := hsome
      rw [hmem, show r = '/' :: t' from heq]
    · simp at hsome
  · intro h
    refine ⟨(a, '/' :: t), ?_, rfl⟩
    rw [mem_splitsList]
    exact h

theorem eq_append_slash_cons {pre suf p t : List Char}
    (h : pre ++ suf = p ++ '/' :: t) (hpre : '/' ∉ pre) :
    ∃ s1 s2, suf = s1 ++ '/' :: s2 ∧ p = pre ++ s1 ∧ t = s2 := by
  rcases List.append_eq_append_iff.mp h with ⟨l', hp, hsuf⟩ | ⟨l', hpre', hrest⟩
  · exact ⟨l', t, hsuf, hp, rfl⟩
  · cases l' with
    | nil =>
      refine ⟨[], t, ?_, ?_, rfl⟩
      · simpa using hrest.symm
      · rw [List.append_nil]
        rw [List.append_nil] at hpre'
        exact hpre'.symm
    | cons c l'' =>
      exfalso
      injection hrest with hc hrest'
      apply hpre
      rw [hpre', ← hc]
      exact List.mem_append_right _ (List.mem_cons_self _ _)

theorem suffix_eq_of_length {x y z : List Char} (hx : x <:+ z) (hy : y <:+ z)
    (hlen : x.length = y.length) : x = y := by
  rcases List.suffix_or_suffix_of_suffix hx hy with h | h
  · exact h.eq_of_length hlen
  · exact (h.eq_of_length hlen.symm).symm

theorem prefixOk_iff (keep p : List Char) (hk : '\n' ∉ keep) :
    prefixOk keep p = true ↔
      (COMISION <+: p ∧ ∀ c ∈ p.drop 9, c ≠ '\n') := by
  unfold prefixOk
  rw [List.any_eq_true]
  constructor
  · rintro ⟨⟨q, B⟩, hmem, hcond⟩
    rw [mem_splitsList] at hmem
    subst hmem
    simp only [Bool.and_eq_true, Bool.or_eq_true, decide_eq_true_eq,
      List.all_eq_true, Bool.not_eq_true', beq_eq_false_iff_ne] at hcond
    obtain ⟨⟨hB, hpre⟩, hall⟩ := hcond
    have hpre' : COMISION <+: q := List.isPrefixOf_iff_prefix.mp hpre
    have h9 : 9 ≤ q.length := by
      have := hpre'.length_le
      simpa [COMISION] using this
    refine ⟨hpre'.trans (List.prefix_append q B), ?_⟩
    intro c hc
    rw [List.drop_append_of_le_length h9] at hc
    rcases List.mem_append.mp hc with hcq | hcB
    · exact hall c hcq
    · rcases hB with rfl | rfl
      · simp at hcB
      · simp only [List.mem_cons] at hcB
        rcases hcB with rfl | rfl | hck
        · decide
        · decide
        · exact fun hEq => hk (hEq ▸ hck)
  · rintro ⟨hpre, hall⟩
    refine ⟨(p, []), ?_, ?_⟩
    · rw [mem_splitsList]
      simp
    · simp only [Bool.and_eq_true, Bool.or_eq_true, decide_eq_true_eq,
        List.all_eq_true, Bool.not_eq_true', beq_eq_false_iff_ne]
      exact ⟨⟨Or.inl trivial, List.isPrefixOf_iff_prefix.mpr hpre⟩, hall⟩

theorem matchCoD_iff (keep exclude cs : List Char) (hk : '\n' ∉ keep) :
    matchCoD keep exclude cs = true ↔
      ∃ p t, cs = p ++ '/' :: t ∧ COMISION <+: p ∧
        (∀ c ∈ p.drop 9, c ≠ '\n') ∧ ¬ (('/' :: exclude) <:+ p) ∧
        tailMatch t = true := by
  unfold matchCoD
  rw [List.any_eq_true]
  constructor
  · rintro ⟨⟨p, r⟩, hmem, hcond⟩
    rw [mem_splitsList] at hmem
    split at hcond
    · rename_i t heq
      simp only [Bool.and_eq_true, Bool.not_eq_true'] at hcond
      obtain ⟨⟨hpre, hsuf⟩, htail⟩ := hcond
      obtain ⟨hp1, hp2⟩ := (prefixOk_iff keep p hk).mp hpre
      refine ⟨p, t, ?_, hp1, hp2, ?_, htail⟩
      · rw [hmem, show r = '/' :: t from heq]
      · intro hs
        rw [← List.isSuffixOf_iff_suffix (α := Char)] at hs
        simp [hs] at hsuf
    · exact absurd hcond (by simp)
  · rintro ⟨p, t, rfl, hp1, hp2, hsuf, htail⟩
    refine ⟨(p, '/' :: t), ?_, ?_⟩
    · rw [mem_splitsList]
    · have hso : (('/' :: exclude).isSuffixOf p) = false := by
        cases hbo : ('/' :: exclude).isSuffixOf p
        · rfl
        · exact absurd (List.isSuffixOf_iff_suffix.mp hbo) hsuf
      have harm : prefixOk keep p = true := (prefixOk_iff keep p hk).mpr ⟨hp1, hp2⟩
      simp [harm, hso, htail]

theorem reMatchCoD_eq (keep exclude cs : List Char) (hlast : cs.getLast? ≠ some '\n') :
    reMatchCoD keep exclude cs = matchCoD keep exclude cs := by
  unfold reMatchCoD
  rw [beq_eq_false_iff_ne.mpr hlast]
  simp

theorem title_getLast (pre : List Char) :
    (pre ++ '/' :: dateTail).getLast? = some '4' := by
  rw [List.getLast?_append]
  rfl

theorem reMatch_title (keep exclude pre : List Char) :
    reMatchCoD keep exclude (pre ++ '/' :: dateTail) =
      matchCoD keep exclude (pre ++ '/' :: dateTail) := by
  apply reMatchCoD_eq
  rw [title_getLast]
  decide

theorem not_slash_suffix {exclude l : List Char} (hl : '/' ∉ l) :
    ¬ ('/' :: exclude) <:+ l :=
  fun hs => hl (hs.subset (List.mem_cons_self _ _))

theorem not_suffix_of_ne_suffix {exclude w p : List Char}
    (hw : w <:+ p) (hlen : w.length = exclude.length + 1)
    (hne : w ≠ '/' :: exclude) : ¬ ('/' :: exclude) <:+ p :=
  fun hs => hne (suffix_eq_of_length hw hs (by simpa using hlen))

theorem matchCoD_accept (keep exclude mid tag : List Char)
    (hm2 : '\n' ∉ mid) (hk : '\n' ∉ keep) (htg : '\n' ∉ tag)
    (hsuf : ¬ ('/' :: exclude) <:+ (COMISION ++ mid ++ tag)) :
    matchCoD keep exclude (COMISION ++ mid ++ tag ++ '/' :: dateTail) = true := by
  rw [matchCoD_iff _ _ _ hk]
  refine ⟨COMISION ++ mid ++ tag, dateTail, rfl, ?_, ?_, hsuf, by decide⟩
  · exact ⟨mid ++ tag, (List.append_assoc ..).symm⟩
  · intro c hc
    have h9 : (COMISION ++ mid ++ tag).drop 9 = mid ++ tag := by
      rw [List.append_assoc]
      have h9' : (9 : Nat) = COMISION.length := rfl
      rw [h9', List.drop_left]
    rw [h9] at hc
    rcases List.mem_append.mp hc with h | h
    · exact fun hEq => hm2 (hEq ▸ h)
    · exact fun hEq => htg (hEq ▸ h)

theorem matchCoD_reject (keep exclude mid suf : List Char)
    (hm1 : '/' ∉ mid) (hk : '\n' ∉ keep)
    (hforall : ∀ s1 s2, (s1, s2) ∈ slashSplits suf →
      tailMatch s2 = false ∨ ('/' :: exclude) <:+ (COMISION ++ mid ++ s1)) :
    matchCoD keep exclude (COMISION ++ mid ++ suf) = false := by
  by_contra hb
  rw [Bool.not_eq_false] at hb
  rw [matchCoD_iff _ _ _ hk] at hb
  obtain ⟨p, t, heq, hpre, hnl, hsuf, htail⟩ := hb
  have hns : '/' ∉ COMISION ++ mid := by
    intro hc
    rcases List.mem_append.mp hc with h | h
    · exact absurd h (by decide)
    · exact hm1 h
  obtain ⟨s1, s2, hs_eq, hp, ht⟩ := eq_append_slash_cons heq hns
  rcases hforall s1 s2 ((mem_slashSplits suf s1 s2).mpr hs_eq) with hbad | hbad
  · rw [ht] at htail
    simp [htail] at hbad
  · exact hsuf (hp ▸ hbad)

/-- `check_title` before noon resolves to the `am`-keeping pattern. -/
theorem check_title_am (title : List Char) (t : Nat) (ht : t < 12 * 60) :
    check_title title t = reMatchCoD ['a', 'm'] ['p', 'm'] title := by
  rw [check_title, if_pos ht]

/-- `check_title` from noon on resolves to the `pm`-keeping pattern. -/
theorem check_title_pm (title : List Char) (t : Nat) (ht : ¬ t < 12 * 60) :
    check_title title t = reMatchCoD ['p', 'm'] ['a', 'm'] title := by
  rw [check_title, if_neg ht]

theorem matchCoD_plain (keep exclude mid : List Char)
    (hk : '\n' ∉ keep) (hm1 : '/' ∉ mid) (hm2 : '\n' ∉ mid) :
    matchCoD keep exclude (COMISION ++ mid ++ '/' :: dateTail) = true := by
  have hns : '/' ∉ COMISION ++ mid := by
    intro hc
    rcases List.mem_append.mp hc with h | h
    · exact absurd h (by decide)
    · exact hm1 h
  have h := matchCoD_accept keep exclude mid [] hm2 hk (by decide)
    (by rw [List.append_nil]; exact not_slash_suffix hns)
  simpa using h

theorem matchCoD_tag_accept (keep exclude mid tag : List Char)
    (hk : '\n' ∉ keep) (hm2 : '\n' ∉ mid) (htg : '\n' ∉ tag)
    (w u : List Char) (hw : tag = u ++ w) (hwlen : w.length = exclude.length + 1)
    (hne : w ≠ '/' :: exclude) :
    matchCoD keep exclude (COMISION ++ mid ++ tag ++ '/' :: dateTail) = true := by
  apply matchCoD_accept keep exclude mid tag hm2 hk htg
  apply not_suffix_of_ne_suffix (w := w) ?_ hwlen hne
  refine ⟨(COMISION ++ mid) ++ u, ?_⟩
  rw [hw, List.append_assoc]

theorem matchCoD_tag_reject (keep exclude mid tag : List Char)
    (hk : '\n' ∉ keep) (hm1 : '/' ∉ mid)
    (hforall : ∀ pr ∈ slashSplits (tag ++ '/' :: dateTail),
      tailMatch pr.2 = false ∨ ('/' :: exclude).isSuffixOf pr.1 = true) :
    matchCoD keep exclude (COMISION ++ mid ++ tag ++ '/' :: dateTail) = false := by
  rw [List.append_assoc (COMISION ++ mid) tag ('/' :: dateTail)]
  apply matchCoD_reject keep exclude mid (tag ++ '/' :: dateTail) hm1 hk
  intro s1 s2 hmem
  rcases hforall (s1, s2) hmem with h | h
  · exact Or.inl h
  · exact Or.inr ((List.isSuffixOf_iff_suffix.mp h).trans (List.suffix_append _ _))

/-- C1 (amended): for every session time and every title of the shape
`Comision <mid><tag>/ 5 enero 2024` (with `<mid>` free of slashes and
newlines), the Chamber-of-Deputies `check_title` accepts iff the token of
the OTHER half of day is not the tag immediately preceding the final
slash; in particular the untagged title is accepted for every session
time (the wanted token is not required), a title tagged only with the
wanted token is accepted, a title tagged only with the other token is
rejected, and a title carrying both tokens is decided by the LAST tag
(e.g. `... /am/pm/ ...` is rejected before noon but accepted from noon
on), not rejected outright. -/
theorem C1_check_title_amended (t : Nat) (mid : List Char)
    (h1 : '/' ∉ mid) (h2 : '\n' ∉ mid) :
    check_title (COMISION ++ mid ++ '/' :: dateTail) t = true ∧
    check_title (COMISION ++ mid ++ amTag ++ '/' :: dateTail) t = decide (t < 12 * 60) ∧
    check_title (COMISION ++ mid ++ pmTag ++ '/' :: dateTail) t =
      !decide (t < 12 * 60) ∧
    check_title (COMISION ++ mid ++ (amTag ++ ['/', 'p', 'm']) ++ '/' :: dateTail) t =
      !decide (t < 12 * 60) ∧
    check_title (COMISION ++ mid ++ (pmTag ++ ['/', 'a', 'm']) ++ '/' :: dateTail) t =
      decide (t < 12 * 60) := by
  have hkam : '\n' ∉ (['a', 'm'] : List Char) := by decide
  have hkpm : '\n' ∉ (['p', 'm'] : List Char) := by decide
  by_cases ht : t < 12 * 60
  · have hd : decide (t < 12 * 60) = true := decide_eq_true ht
    rw [hd]
    refine ⟨?_, ?_, ?_, ?_, ?_⟩
    · rw [check_title_am _ _ ht, reMatch_title]
      exact matchCoD_plain _ _ mid hkam h1 h2
    · rw [check_title_am _ _ ht, reMatch_title]
      exact matchCoD_tag_accept ['a', 'm'] ['p', 'm'] mid amTag hkam h2 (by decide)
        ['/', 'a', 'm'] [' '] (by decide) (by decide) (by decide)
    · rw [check_title_am _ _ ht, reMatch_title, Bool.not_true]
      exact matchCoD_tag_reject ['a', 'm'] ['p', 'm'] mid pmTag hkam h1 (by decide)
    · rw [check_title_am _ _ ht, reMatch_title, Bool.not_true]
      exact matchCoD_tag_reject ['a', 'm'] ['p', 'm'] mid (amTag ++ ['/', 'p', 'm'])
        hkam h1 (by decide)
    · rw [check_title_am _ _ ht, reMatch_title]
      exact matchCoD_tag_accept ['a', 'm'] ['p', 'm'] mid (pmTag ++ ['/', 'a', 'm'])
        hkam h2 (by decide) ['/', 'a', 'm'] [' ', '/', 'p', 'm'] (by decide) (by decide)
        (by decide)
  · have hd : decide (t < 12 * 60) = false := decide_eq_false ht
    rw [hd]
    refine ⟨?_, ?_, ?_, ?_, ?_⟩
    · rw [check_title_pm _ _ ht, reMatch_title]
      exact matchCoD_plain _ _ mid hkpm h1 h2
    · rw [check_title_pm _ _ ht, reMatch_title]
      exact matchCoD_tag_reject ['p', 'm'] ['a', 'm'] mid amTag hkpm h1 (by decide)
    · rw [check_title_pm _ _ ht, reMatch_title, Bool.not_false]
      exact matchCoD_tag_accept ['p', 'm'] ['a', 'm'] mid pmTag hkpm h2 (by decide)
        ['/', 'p', 'm'] [' '] (by decide) (by decide) (by decide)
    · rw [check_title_pm _ _ ht, reMatch_title, Bool.not_false]
      exact matchCoD_tag_accept ['p', 'm'] ['a', 'm'] mid (amTag ++ ['/', 'p', 'm'])
        hkpm h2 (by decide) ['/', 'p', 'm'] [' ', '/', 'a', 'm'] (by decide) (by decide)
        (by decide)
    · rw [check_title_pm _ _ ht, reMatch_title]
      exact matchCoD_tag_reject ['p', 'm'] ['a', 'm'] mid (pmTag ++ ['/', 'a', 'm'])
        hkpm h1 (by decide)

/-- Counterexample to C1 as stated: for a session starting at 09:00
(540 minutes, before noon) the title `Comision Salud/ 5 enero 2024` —
which contains neither the token `am` nor the token `pm` — is accepted by
`check_title`, so acceptance does NOT require the title to contain the
half-of-day token matching the session start. -/
theorem C1_check_title_counterexample :
    540 < 12 * 60 ∧
    check_title ("Comision Salud/ 5 enero 2024").data 540 = true ∧
    hasToken ['a', 'm'] ("Comision Salud/ 5 enero 2024").data = false ∧
    hasToken ['p', 'm'] ("Comision Salud/ 5 enero 2024").data = false := by
  refine ⟨by norm_num, ?_, by decide, by decide⟩
  decide

/-- Witness for the amended C1 theorem at `mid = "Salud"` and the two spec
session times 09:00 (540) and 15:00 (900). -/
theorem C1_check_title_amended_witness :
    ('/' ∉ ("Salud").data ∧ '\n' ∉ ("Salud").data) ∧
    (check_title (COMISION ++ ("Salud").data ++ '/' :: dateTail) 540 = true ∧
      check_title (COMISION ++ ("Salud").data ++ amTag ++ '/' :: dateTail) 540 =
        decide (540 < 12 * 60) ∧
      check_title (COMISION ++ ("Salud").data ++ pmTag ++ '/' :: dateTail) 540 =
        !decide (540 < 12 * 60) ∧
      check_title (COMISION ++ ("Salud").data ++ (amTag ++ ['/', 'p', 'm']) ++
          '/' :: dateTail) 540 = !decide (540 < 12 * 60) ∧
      check_title (COMISION ++ ("Salud").data ++ (pmTag ++ ['/', 'a', 'm']) ++
          '/' :: dateTail) 540 = decide (540 < 12 * 60)) ∧
    (check_title (COMISION ++ ("Salud").data ++ amTag ++ '/' :: dateTail) 900 =
        decide (900 < 12 * 60) ∧
      check_title (COMISION ++ ("Salud").data ++ pmTag ++ '/' :: dateTail) 900 =
        !decide (900 < 12 * 60)) :=
  ⟨⟨by decide, by decide⟩,
    C1_check_title_amended 540 ("Salud").data (by decide) (by decide),
    ⟨(C1_check_title_amended 900 ("Salud").data (by decide) (by decide)).2.1,
      (C1_check_title_amended 900 ("Salud").data (by decide) (by decide)).2.2.1⟩⟩

theorem digitVal_digitChar (n : Nat) (h : n < 10) : digitVal (digitChar n) = n := by
  interval_cases n <;> rfl

theorem isDigitCh_digitChar (n : Nat) (h : n < 10) : isDigitCh (digitChar n) = true := by
  interval_cases n <;> rfl

theorem read2_pad2 (n : Nat) (hn : n ≤ 99) (r : List Char) :
    read2 (pad2 n ++ r) = some (n, r) := by
  have h1 : n / 10 < 10 := by omega
  have h2 : n % 10 < 10 := by omega
  have hv : digitVal (digitChar (n / 10)) * 10 + digitVal (digitChar (n % 10)) = n := by
    rw [digitVal_digitChar _ h1, digitVal_digitChar _ h2]
    omega
  simp [pad2, read2, isDigitCh_digitChar _ h1, isDigitCh_digitChar _ h2, hv]

theorem read2_pad2_nil (n : Nat) (hn : n ≤ 99) : read2 (pad2 n) = some (n, []) := by
  have := read2_pad2 n hn []
  simpa using this

theorem read4_pad4 (n : Nat) (hn : n ≤ 9999) (r : List Char) :
    read4 (pad4 n ++ r) = some (n, r) := by
  have h1 : n / 1000 < 10 := by omega
  have h2 : n / 100 % 10 < 10 := by omega
  have h3 : n / 10 % 10 < 10 := by omega
  have h4 : n % 10 < 10 := by omega
  have hv : ((digitVal (digitChar (n / 1000)) * 10 + digitVal (digitChar (n / 100 % 10))) * 10 +
      digitVal (digitChar (n / 10 % 10))) * 10 + digitVal (digitChar (n % 10)) = n := by
    rw [digitVal_digitChar _ h1, digitVal_digitChar _ h2, digitVal_digitChar _ h3,
      digitVal_digitChar _ h4]
    omega
  simp [pad4, read4, isDigitCh_digitChar _ h1, isDigitCh_digitChar _ h2,
    isDigitCh_digitChar _ h3, isDigitCh_digitChar _ h4, hv]

theorem expectCh_cons (c : Char) (r : List Char) : expectCh c (c :: r) = some r := by
  simp [expectCh]

theorem daysInMonth_le (y m : Nat) : daysInMonth y m ≤ 31 := by
  unfold daysInMonth
  split_ifs <;> omega

theorem readDate_print (y mo d : Nat) (r : List Char)
    (hy : y ≤ 9999) (hmo : mo ≤ 99) (hd : d ≤ 99) :
    readDate (pad4 y ++ '-' :: (pad2 mo ++ '-' :: (pad2 d ++ r))) =
      some (y, mo, d, r) := by
  simp [readDate, read4_pad4 y hy, expectCh_cons, read2_pad2 mo hmo, read2_pad2 d hd]

theorem spanDigits_nondigit (z : List Char)
    (hz : ∀ c, z.head? = some c → isDigitCh c = false) :
    spanDigits z = ([], z) := by
  cases z with
  | nil => rfl
  | cons c z' =>
    have := hz c rfl
    simp [spanDigits, this]

theorem spanDigits_pad6 (us : Nat) (h : us ≤ 999999) (z : List Char)
    (hz : ∀ c, z.head? = some c → isDigitCh c = false) :
    spanDigits (pad6 us ++ z) = (pad6 us, z) := by
  have h1 : us / 100000 < 10 := by omega
  have h2 : us / 10000 % 10 < 10 := by omega
  have h3 : us / 1000 % 10 < 10 := by omega
  have h4 : us / 100 % 10 < 10 := by omega
  have h5 : us / 10 % 10 < 10 := by omega
  have h6 : us % 10 < 10 := by omega
  simp [pad6, spanDigits, isDigitCh_digitChar _ h1, isDigitCh_digitChar _ h2,
    isDigitCh_digitChar _ h3, isDigitCh_digitChar _ h4, isDigitCh_digitChar _ h5,
    isDigitCh_digitChar _ h6, spanDigits_nondigit z hz]

theorem valDigits_pad6 (us : Nat) (h : us ≤ 999999) : valDigits (pad6 us) = us := by
  have h1 : us / 100000 < 10 := by omega
  have h2 : us / 10000 % 10 < 10 := by omega
  have h3 : us / 1000 % 10 < 10 := by omega
  have h4 : us / 100 % 10 < 10 := by omega
  have h5 : us / 10 % 10 < 10 := by omega
  have h6 : us % 10 < 10 := by omega
  simp [pad6, valDigits, digitVal_digitChar _ h1, digitVal_digitChar _ h2,
    digitVal_digitChar _ h3, digitVal_digitChar _ h4, digitVal_digitChar _ h5,
    digitVal_digitChar _ h6]
  omega

theorem isoOffset_head_sign (o : Int) (c : Char)
    (hc : (isoOffset o).head? = some c) : c = '+' ∨ c = '-' := by
  unfold isoOffset at hc
  by_cases hneg : o < 0 <;> simp [hneg] at hc
  · exact Or.inr hc.symm
  · exact Or.inl hc.symm

theorem isoOffset_head_nondigit (o : Int) :
    ∀ c, (isoOffset o).head? = some c → isDigitCh c = false := by
  intro c hc
  rcases isoOffset_head_sign o c hc with rfl | rfl <;> rfl

theorem pad6_length (us : Nat) : (pad6 us).length = 6 := by
  simp [pad6]

theorem readFrac_pad6 (us : Nat) (h0 : ¬ us = 0) (h : us ≤ 999999) (z : List Char)
    (hz : ∀ c, z.head? = some c → isDigitCh c = false) :
    readFrac ('.' :: (pad6 us ++ z)) = some (us, z) := by
  have hspan := spanDigits_pad6 us h z hz
  simp only [readFrac, hspan, pad6_length, valDigits_pad6 us h]
  simp

theorem readFrac_nofrac (r : List Char) (hr : ∀ c, r.head? = some c → c ≠ '.') :
    readFrac r = some (0, r) := by
  cases r with
  | nil => rfl
  | cons c r' =>
    have hc := hr c rfl
    unfold readFrac
    split
    · rename_i heq
      injection heq with h1 h2
      exact absurd h1 hc
    · rfl

theorem readHM_print (m : Nat) (hm : m ≤ 1439) :
    readHM (pad2 (m / 60) ++ ':' :: pad2 (m % 60)) = some m := by
  have h1 : m / 60 ≤ 99 := by omega
  have h2 : m % 60 ≤ 99 := by omega
  have hv : m / 60 * 60 + m % 60 = m := by omega
  simp [readHM, read2_pad2 _ h1, expectCh_cons, read2_pad2_nil _ h2, hv, hm]

theorem readOffset_isoOffset (o : Int) (h : o.natAbs ≤ 1439) :
    readOffset (isoOffset o) = some (some o) := by
  by_cases hneg : o < 0
  · have hcast : -(Int.ofNat o.natAbs) = o := by
      rw [show Int.ofNat o.natAbs = ((o.natAbs : Nat) : Int) from rfl]
      omega
    simp only [isoOffset, if_pos hneg, readOffset, readHM_print o.natAbs h,
      Option.map_some', hcast]
  · have hcast : Int.ofNat o.natAbs = o := by
      rw [show Int.ofNat o.natAbs = ((o.natAbs : Nat) : Int) from rfl]
      omega
    simp only [isoOffset, if_neg hneg, readOffset, readHM_print o.natAbs h,
      Option.map_some', hcast]

theorem readFrac_print (us : Nat) (hus : us ≤ 999999) (o : Int) :
    readFrac ((if us = 0 then [] else '.' :: pad6 us) ++ isoOffset o) =
      some (us, isoOffset o) := by
  by_cases h0 : us = 0
  · subst h0
    simp only [if_pos rfl, List.nil_append]
    apply readFrac_nofrac
    intro c hc
    rcases isoOffset_head_sign o c hc with rfl | rfl <;> decide
  · simp only [if_neg h0, List.cons_append]
    exact readFrac_pad6 us h0 hus (isoOffset o) (isoOffset_head_nondigit o)

theorem readTime_print (hh mi ss us : Nat) (o : Int)
    (h23 : hh ≤ 23) (h59 : mi ≤ 59) (h59s : ss ≤ 59) (hus : us ≤ 999999)
    (ho : o.natAbs ≤ 1439) :
    readTime (pad2 hh ++ ':' :: (pad2 mi ++ ':' :: (pad2 ss ++
      ((if us = 0 then [] else '.' :: pad6 us) ++ isoOffset o)))) =
      some (hh, mi, ss, us, some o) := by
  simp only [readTime, read2_pad2 hh (by omega), expectCh_cons,
    read2_pad2 mi (by omega), read2_pad2 ss (by omega), readFrac_print us hus o,
    readOffset_isoOffset o ho]
  simp [h23, h59, h59s]

theorem fromisoformatDT_isoformat (d : PyDateTime) (hv : d.valid = true)
    (ha : d.offset.isSome = true) : fromisoformatDT d.isoformat = some d := by
  obtain ⟨y, mo, dd, hh, mi, ss, us, off⟩ := d
  obtain ⟨o, rfl⟩ : ∃ o, off = some o := by
    cases off
    · simp at ha
    · exact ⟨_, rfl⟩
  simp only [PyDateTime.valid, Bool.and_eq_true, decide_eq_true_eq] at hv
  obtain ⟨⟨⟨⟨⟨hvd, h23⟩, h59⟩, h59s⟩, hus⟩, ho⟩ := hv
  have hbounds : y ≤ 9999 ∧ mo ≤ 99 ∧ dd ≤ 99 := by
    have hvd' := hvd
    simp only [validDate, Bool.and_eq_true, decide_eq_true_eq] at hvd'
    have := daysInMonth_le y mo
    omega
  simp only [PyDateTime.isoformat]
  simp only [fromisoformatDT,
    readDate_print y mo dd _ hbounds.1 hbounds.2.1 hbounds.2.2, hvd, if_true,
    readTime_print hh mi ss us o h23 h59 h59s hus ho]

theorem readDigits2_pad2 (n : Nat) (hn : n ≤ 99) (r : List Char) :
    readDigits 2 (pad2 n ++ r) = some r := by
  have h1 : n / 10 < 10 := by omega
  have h2 : n % 10 < 10 := by omega
  simp [pad2, readDigits, isDigitCh_digitChar _ h1, isDigitCh_digitChar _ h2]

theorem readDigits2_pad2_nil (n : Nat) (hn : n ≤ 99) : readDigits 2 (pad2 n) = some [] := by
  have := readDigits2_pad2 n hn []
  simpa using this

theorem readDigits4_pad4 (n : Nat) (hn : n ≤ 9999) (r : List Char) :
    readDigits 4 (pad4 n ++ r) = some r := by
  have h1 : n / 1000 < 10 := by omega
  have h2 : n / 100 % 10 < 10 := by omega
  have h3 : n / 10 % 10 < 10 := by omega
  have h4 : n % 10 < 10 := by omega
  simp [pad4, readDigits, isDigitCh_digitChar _ h1, isDigitCh_digitChar _ h2,
    isDigitCh_digitChar _ h3, isDigitCh_digitChar _ h4]

theorem isoTz_isoOffset (o : Int) (h : o.natAbs ≤ 1439) :
    isoTz (isoOffset o) = true := by
  have h1 : o.natAbs / 60 ≤ 99 := by omega
  have h2 : o.natAbs % 60 ≤ 99 := by omega
  by_cases hneg : o < 0 <;>
    simp [isoOffset, hneg, isoTz, readDigits2_pad2 _ h1, expectCh_cons,
      readDigits2_pad2_nil _ h2]

theorem isoFrac_print (us : Nat) (hus : us ≤ 999999) (o : Int) :
    isoFrac ((if us = 0 then [] else '.' :: pad6 us) ++ isoOffset o) =
      some (isoOffset o) := by
  by_cases h0 : us = 0
  · subst h0
    simp only [if_pos rfl, List.nil_append]
    rcases hsign : (isoOffset o).head? with _ | c
    · cases hiso : isoOffset o
      · simp [isoFrac]
      · rw [hiso] at hsign
        simp at hsign
    · have := isoOffset_head_sign o c hsign
      cases hiso : isoOffset o with
      | nil => simp [isoFrac]
      | cons c' r' =>
        rw [hiso] at hsign
        simp only [List.head?_cons, Option.some.injEq] at hsign
        subst hsign
        rcases this with rfl | rfl <;> simp [isoFrac]
  · simp only [if_neg h0, List.cons_append]
    have hspan := spanDigits_pad6 us hus (isoOffset o) (isoOffset_head_nondigit o)
    simp only [isoFrac, hspan, pad6_length]
    simp [pad6]

theorem isoRegexFull_isoformat (d : PyDateTime) (hv : d.valid = true)
    (ha : d.offset.isSome = true) : isoRegexFull d.isoformat = true := by
  obtain ⟨y, mo, dd, hh, mi, ss, us, off⟩ := d
  obtain ⟨o, rfl⟩ : ∃ o, off = some o := by
    cases off
    · simp at ha
    · exact ⟨_, rfl⟩
  simp only [PyDateTime.valid, Bool.and_eq_true, decide_eq_true_eq] at hv
  obtain ⟨⟨⟨⟨⟨hvd, h23⟩, h59⟩, h59s⟩, hus⟩, ho⟩ := hv
  have hb : y ≤ 9999 ∧ mo ≤ 99 ∧ dd ≤ 99 := by
    have hvd' := hvd
    simp only [validDate, Bool.and_eq_true, decide_eq_true_eq] at hvd'
    have := daysInMonth_le y mo
    omega
  have hdp : isoDatePart (pad4 y ++ '-' :: (pad2 mo ++ '-' :: (pad2 dd ++ 'T' ::
      (pad2 hh ++ ':' :: (pad2 mi ++ ':' :: (pad2 ss ++
        ((if us = 0 then [] else '.' :: pad6 us) ++ isoOffset o))))))) =
      some ('T' :: (pad2 hh ++ ':' :: (pad2 mi ++ ':' :: (pad2 ss ++
        ((if us = 0 then [] else '.' :: pad6 us) ++ isoOffset o))))) := by
    simp [isoDatePart, readDigits4_pad4 y hb.1, expectCh_cons,
      readDigits2_pad2 mo hb.2.1, readDigits2_pad2 dd hb.2.2]
  have htm : isoTime (pad2 hh ++ ':' :: (pad2 mi ++ ':' :: (pad2 ss ++
      ((if us = 0 then [] else '.' :: pad6 us) ++ isoOffset o)))) =
      some ((if us = 0 then [] else '.' :: pad6 us) ++ isoOffset o) := by
    simp [isoTime, readDigits2_pad2 hh (by omega), expectCh_cons,
      readDigits2_pad2 mi (by omega), readDigits2_pad2 ss (by omega)]
  simp only [PyDateTime.isoformat, isoRegexFull, hdp, htm]
  simp only [isoFrac_print us hus o, isoTz_isoOffset o ho]

theorem isoRegexMatch_isoformat (d : PyDateTime) (hv : d.valid = true)
    (ha : d.offset.isSome = true) : isoRegexMatch d.isoformat = true := by
  unfold isoRegexMatch
  rw [isoRegexFull_isoformat d hv ha]
  simp

theorem parse_iso_isoformat (d : PyDateTime) (hv : d.valid = true)
    (ha : d.offset.isSome = true) :
    parse_iso_datetime d.isoformat = .vdt d := by
  unfold parse_iso_datetime
  rw [fromisoformatDT_isoformat d hv ha]

theorem cdiList_eq_map (xs : List Val) :
    cdiList xs = xs.map convert_datetime_in_dict := by
  induction xs with
  | nil => rfl
  | cons v vs ih => simp [cdiList, ih]

theorem cdiDict_eq_map (kvs : List (List Char × Val)) :
    cdiDict kvs = kvs.map fun kv => (kv.1, convert_datetime_in_dict kv.2) := by
  induction kvs with
  | nil => rfl
  | cons kv kvs ih =>
    obtain ⟨k, v⟩ := kv
    simp [cdiDict, ih]

theorem cdsList_eq_map (xs : List Val) :
    cdsList xs = xs.map convert_datetime_strings_to_datetime := by
  induction xs with
  | nil => rfl
  | cons v vs ih => simp [cdsList, ih]

theorem cdsDict_eq_map (kvs : List (List Char × Val)) :
    cdsDict kvs = kvs.map fun kv => (kv.1, convert_datetime_strings_to_datetime kv.2) := by
  induction kvs with
  | nil => rfl
  | cons kv kvs ih =>
    obtain ⟨k, v⟩ := kv
    simp [cdsDict, ih]

theorem goodValList_iff (xs : List Val) :
    goodValList xs = true ↔ ∀ x ∈ xs, goodVal x = true := by
  induction xs with
  | nil => simp [goodValList]
  | cons v vs ih => simp [goodValList, ih]

theorem goodValDict_iff (kvs : List (List Char × Val)) :
    goodValDict kvs = true ↔ ∀ kv ∈ kvs, goodVal kv.2 = true := by
  induction kvs with
  | nil => simp [goodValDict]
  | cons kv kvs ih =>
    obtain ⟨k, v⟩ := kv
    rw [goodValDict, Bool.and_eq_true, ih]
    constructor
    · rintro ⟨hv, hrest⟩ kv hkv
      rcases List.mem_cons.mp hkv with rfl | hmem
      · exact hv
      · exact hrest kv hmem
    · intro h
      exact ⟨h (k, v) (List.mem_cons_self _ _),
        fun kv hkv => h kv (List.mem_cons_of_mem _ hkv)⟩

theorem roundtrip_aux :
    ∀ (n : Nat) (v : Val), sizeOf v ≤ n → goodVal v = true →
      convert_datetime_strings_to_datetime (convert_datetime_in_dict v) = v := by
  intro n
  induction n using Nat.strong_induction_on with
  | _ n ih =>
    intro v hsz hg
    cases v with
    | vstr s =>
      simp only [goodVal, Bool.not_eq_true'] at hg
      simp [convert_datetime_in_dict, convert_datetime_strings_to_datetime, hg]
    | vdt d =>
      simp only [goodVal, Bool.and_eq_true] at hg
      simp only [convert_datetime_in_dict, convert_datetime_strings_to_datetime]
      rw [if_pos (isoRegexMatch_isoformat d hg.1 hg.2)]
      exact parse_iso_isoformat d hg.1 hg.2
    | vdate d => simp [goodVal] at hg
    | vint m => rfl
    | vbool b => rfl
    | vlist xs =>
      simp only [goodVal] at hg
      simp only [convert_datetime_in_dict, cdiList_eq_map,
        convert_datetime_strings_to_datetime, cdsList_eq_map, List.map_map]
      congr 1
      have hstep : ∀ x ∈ xs,
          (convert_datetime_strings_to_datetime ∘ convert_datetime_in_dict) x = id x := by
        intro x hx
        have hlt : sizeOf x < sizeOf (Val.vlist xs) := by
          have := List.sizeOf_lt_of_mem hx
          simp only [Val.vlist.sizeOf_spec]
          omega
        exact ih (sizeOf x) (by omega) x le_rfl ((goodValList_iff xs).mp hg x hx)
      rw [List.map_congr_left hstep, List.map_id]
    | vdict kvs =>
      simp only [goodVal] at hg
      simp only [convert_datetime_in_dict, cdiDict_eq_map,
        convert_datetime_strings_to_datetime, cdsDict_eq_map, List.map_map]
      congr 1
      have hstep : ∀ kv ∈ kvs,
          ((fun kv : List Char × Val =>
              (kv.1, convert_datetime_strings_to_datetime kv.2)) ∘
            (fun kv : List Char × Val => (kv.1, convert_datetime_in_dict kv.2))) kv =
            id kv := by
        intro kv hkv
        obtain ⟨k, x⟩ := kv
        have hlt : sizeOf x < sizeOf (Val.vdict kvs) := by
          have h1 := List.sizeOf_lt_of_mem hkv
          have h2 : sizeOf (k, x) = 1 + sizeOf k + sizeOf x := rfl
          simp only [Val.vdict.sizeOf_spec]
          omega
        have := ih (sizeOf x) (by omega) x le_rfl ((goodValDict_iff kvs).mp hg (k, x) hkv)
        simp [this]
      rw [List.map_congr_left hstep, List.map_id]

/-- C9 (amended): for every nested dict/list structure in which every
datetime value is a valid, timezone-aware Python datetime (whole-minute
UTC offset), NO bare `date` value occurs, and no pre-existing string
matches the ISO-8601 pattern, serializing with `convert_datetime_in_dict`
and parsing back with `convert_datetime_strings_to_datetime` returns a
structure equal to the original. -/
theorem C9_datetime_roundtrip (v : Val) (hg : goodVal v = true) :
    convert_datetime_strings_to_datetime (convert_datetime_in_dict v) = v :=
  roundtrip_aux (sizeOf v) v le_rfl hg

/-- Witness for C9 at a session-like structure: an aware datetime
(2024-03-05 10:00 at UTC−03:00), a microsecond-carrying aware datetime, a
plain string, an int and a bool, nested under a dict and a list. -/
theorem C9_datetime_roundtrip_witness :
    goodVal (Val.vdict [(("start").data,
        .vdt (PyDateTime.mk 2024 3 5 10 0 0 0 (some (-180)))),
      (("items").data, .vlist [.vstr ("hola").data, .vint 7, .vbool true,
        .vdt (PyDateTime.mk 2024 12 31 23 59 59 123456 (some 330))])]) = true ∧
    convert_datetime_strings_to_datetime (convert_datetime_in_dict
      (Val.vdict [(("start").data,
          .vdt (PyDateTime.mk 2024 3 5 10 0 0 0 (some (-180)))),
        (("items").data, .vlist [.vstr ("hola").data, .vint 7, .vbool true,
          .vdt (PyDateTime.mk 2024 12 31 23 59 59 123456 (some 330))])])) =
      Val.vdict [(("start").data,
          .vdt (PyDateTime.mk 2024 3 5 10 0 0 0 (some (-180)))),
        (("items").data, .vlist [.vstr ("hola").data, .vint 7, .vbool true,
          .vdt (PyDateTime.mk 2024 12 31 23 59 59 123456 (some 330))])] :=
  ⟨rfl, C9_datetime_roundtrip _ rfl⟩

/-- Counterexample to C9 as stated: a structure containing a bare
`datetime.date` satisfies the claim's hypotheses (every DATETIME value is
timezone-aware — there are none — and no string matches the pattern), yet
does not round-trip: the date serializes to `2024-01-01`, which
`datetime.fromisoformat` parses back as the NAIVE MIDNIGHT DATETIME
`2024-01-01T00:00:00`, not as the original `date`. -/
theorem C9_datetime_roundtrip_counterexample :
    claimGood (Val.vdict [(['d'], .vdate (PyDate.mk 2024 1 1))]) = true ∧
    convert_datetime_strings_to_datetime (convert_datetime_in_dict
      (Val.vdict [(['d'], .vdate (PyDate.mk 2024 1 1))])) =
      Val.vdict [(['d'], .vdt (PyDateTime.mk 2024 1 1 0 0 0 0 none))] ∧
    convert_datetime_strings_to_datetime (convert_datetime_in_dict
      (Val.vdict [(['d'], .vdate (PyDate.mk 2024 1 1))])) ≠
      Val.vdict [(['d'], .vdate (PyDate.mk 2024 1 1))] := by
  refine ⟨rfl, rfl, ?_⟩
  intro h
  rw [show convert_datetime_strings_to_datetime (convert_datetime_in_dict
      (Val.vdict [(['d'], .vdate (PyDate.mk 2024 1 1))])) =
      Val.vdict [(['d'], .vdt (PyDateTime.mk 2024 1 1 0 0 0 0 none))] from rfl] at h
  simp at h

end SP
